import Mathlib

/-
Verification development for the Gutenberg RDF importer.

The Go sources are shallowly embedded: pure helper functions become Lean
functions on `String` / `List Char`; the SQLite store becomes an explicit
`Store` record; the transactional upsert becomes a step-indexed fallible
function; the concurrent import worker is modelled as one worker consuming
its document list sequentially (the statistics structure is mutex-guarded in
the source, so per-worker behaviour composes).  Strings are treated as
sequences of characters; the whitespace class is the ASCII part of Go's
`unicode.IsSpace`, and `\d` in the Go regexes is ASCII `[0-9]` (RE2 default).
-/

/-! ## String helpers (Go `strings` package fragments used by the extractor) -/

/-- ASCII white-space, as recognised by Go's `unicode.IsSpace` on ASCII input. -/
def isSpaceGo (c : Char) : Bool :=
  c = ' ' || c = '\t' || c = '\n' || c = '\x0b' || c = '\x0c' || c = '\r'

/-- Go `strings.TrimSpace` (ASCII fragment). -/
def trimSpace (s : String) : String :=
  String.mk (((s.toList.dropWhile isSpaceGo).reverse.dropWhile isSpaceGo).reverse)

/-- Accumulator form of Go `strings.Fields`: split around runs of white-space. -/
def fieldsAux : List Char → List Char → List String
  | acc, [] => if acc.isEmpty then [] else [String.mk acc.reverse]
  | acc, c :: cs =>
    if isSpaceGo c then
      if acc.isEmpty then fieldsAux [] cs else String.mk acc.reverse :: fieldsAux [] cs
    else fieldsAux (c :: acc) cs

/-- Go `strings.Fields`. -/
def fieldsGo (s : String) : List String :=
  fieldsAux [] s.toList

/-- Split a character list at the first occurrence of `sep`; the separator is
dropped.  Mirrors Go `strings.SplitN(s, sep, 2)` when `sep` occurs in `s`. -/
def splitAtFirst (sep : Char) : List Char → List Char × List Char
  | [] => ([], [])
  | c :: rest =>
    if c = sep then ([], rest)
    else
      let p := splitAtFirst sep rest
      (c :: p.1, p.2)

/-- Substring test helper: does `pat` occur in the list, Go `strings.Contains`. -/
def strContainsAux (pat : List Char) : List Char → Bool
  | [] => pat.isEmpty
  | c :: rest => pat.isPrefixOf (c :: rest) || strContainsAux pat rest

/-- Go `strings.Contains`. -/
def strContains (s pat : String) : Bool :=
  strContainsAux pat.toList s.toList

/-- Numeric value of a digit list (most significant first). -/
def digitsToNat (ds : List Char) : Nat :=
  ds.foldl (fun n c => 10 * n + (c.toNat - 48)) 0

/-- Go `strconv.Atoi` / `strconv.ParseInt(s, 10, 64)`: optional sign, then a
non-empty all-digit tail, rejected when outside the 64-bit signed range. -/
def atoiGo (s : String) : Option Int :=
  let cs := s.toList
  let signed : Bool × List Char :=
    match cs with
    | '+' :: r => (false, r)
    | '-' :: r => (true, r)
    | r => (false, r)
  let ds := signed.2
  if ds.isEmpty || !(ds.all Char.isDigit) then none
  else
    let v : Int := if signed.1 then -(digitsToNat ds : Int) else (digitsToNat ds : Int)
    if v < -9223372036854775808 || v > 9223372036854775807 then none else some v

/-! ## Record extractor helpers (src/unnamed/part_001, richer version) -/

/-- Tail-of-string test used by the Gutenberg-ID regex: after the digit run the
regex `(?:/|$)` requires either end of text or a further slash. -/
def boundaryOk (l : List Char) : Bool :=
  l.isEmpty || l.head? = some '/'

/-- Scanner for the regex pattern of a slash-delimited digit run.  RE2 finds
the leftmost match of the Go pattern: a literal slash, a maximal non-empty
digit run, then a slash or end of text. -/
def gidScan : List Char → Option (List Char)
  | [] => none
  | c :: rest =>
    if c = '/' then
      let ds := rest.takeWhile Char.isDigit
      if ds.isEmpty then gidScan rest
      else if boundaryOk (rest.drop ds.length) then some ds
      else gidScan rest
    else gidScan rest

/-- `extractGutenbergID` from the source: first submatch of the Go regex
applied to the URI, or the empty string when there is no match. -/
def extractGutenbergID (uri : String) : String :=
  match gidScan uri.toList with
  | some ds => String.mk ds
  | none => ""

/-- Four leading digits of a character list, when present. -/
def fourDigitHead : List Char → Option (List Char)
  | a :: b :: c :: d :: _ =>
    if a.isDigit && b.isDigit && c.isDigit && d.isDigit then some [a, b, c, d] else none
  | _ => none

/-- Leftmost window of four consecutive digits, the match of the Go regex
pattern of four digits. -/
def yearScan : List Char → Option (List Char)
  | [] => none
  | c :: rest =>
    match fourDigitHead (c :: rest) with
    | some ds => some ds
    | none => yearScan rest

/-- `extractYear` from the source: first match of the four-digit regex,
converted with `strconv.Atoi` (which cannot fail on four digits). -/
def extractYear (dateStr : String) : Option Int :=
  (yearScan dateStr.toList).map fun ds => (digitsToNat ds : Int)

/-- `extractFormatFromURL` from the source: ordered substring hints. -/
def extractFormatFromURL (url : String) : String :=
  let u := url.toLower
  if strContains u "epub" then "application/epub+zip"
  else if strContains u "kindle" then "application/x-mobipocket-ebook"
  else if strContains u "html" then "text/html"
  else if strContains u "txt" || strContains u "plain" then "text/plain"
  else ""

/-- `splitName` from the source. -/
def splitName (fullName : String) : String × String :=
  let t := trimSpace fullName
  if t = "" then ("", "")
  else if t.toList.contains ',' then
    let parts := splitAtFirst ',' t.toList
    (trimSpace (String.mk parts.2), trimSpace (String.mk parts.1))
  else
    match fieldsGo t with
    | [] => ("", "")
    | [w] => ("", w)
    | w :: x :: xs => (w, xs.getLastD x)

/-! ## Spec-side formulations used for correction and refinement statements -/

/-- All suffixes of a list, longest first. -/
def suffixes : List α → List (List α)
  | [] => [[]]
  | c :: rest => (c :: rest) :: suffixes rest

/-- Does a slash-delimited digit run start exactly here? -/
def slashDigitsAt : List Char → Option (List Char)
  | [] => none
  | c :: rest =>
    if c = '/' then
      let ds := rest.takeWhile Char.isDigit
      if ds.isEmpty then none
      else if boundaryOk (rest.drop ds.length) then some ds
      else none
    else none

/-- Spec-side description of the Gutenberg-ID rule: the digit run of the first
position carrying a slash-delimited digit run. -/
def firstSlashDigitSeg (l : List Char) : Option (List Char) :=
  ((suffixes l).find? fun t => (slashDigitsAt t).isSome).bind slashDigitsAt

/-- Split at every slash, keeping empty segments (accumulator reversed). -/
def splitSlashAux : List Char → List Char → List String
  | acc, [] => [String.mk acc.reverse]
  | acc, c :: cs =>
    if c = '/' then String.mk acc.reverse :: splitSlashAux [] cs
    else splitSlashAux (c :: acc) cs

/-- Path segments of a URI: the pieces between slashes. -/
def pathSegments (uri : String) : List String :=
  splitSlashAux [] uri.toList

/-- Modelled from the claim wording: the last path segment of the URI that
consists solely of digits, or the empty string. -/
def lastAllDigitSegmentClaim (uri : String) : String :=
  (((pathSegments uri).filter fun seg =>
      decide (seg ≠ "") && seg.toList.all Char.isDigit).getLast?).getD ""

/-- Spec-side description of the year rule: value of the first suffix that
starts with four digits. -/
def firstFourWindow (s : String) : Option Int :=
  (((suffixes s.toList).find? fun t => (fourDigitHead t).isSome).bind fourDigitHead).map
    fun ds => (digitsToNat ds : Int)

/-- Maximal digit runs of a string, in order (accumulator reversed). -/
def digitRunsAux : List Char → List Char → List (List Char)
  | cur, [] => if cur.isEmpty then [] else [cur.reverse]
  | cur, c :: cs =>
    if c.isDigit then digitRunsAux (c :: cur) cs
    else if cur.isEmpty then digitRunsAux [] cs
    else cur.reverse :: digitRunsAux [] cs

/-- Maximal digit runs of a string, in order. -/
def digitRuns (s : String) : List (List Char) :=
  digitRunsAux [] s.toList

/-- Modelled from the claim wording: the first maximal run of exactly four
digits, absent when no maximal run has length four. -/
def yearExactFourClaim (s : String) : Option Int :=
  ((digitRuns s).find? fun r => r.length = 4).map fun ds => (digitsToNat ds : Int)

/-- Modelled from the claim wording for the name split: before the first
comma trimmed is the last name, the trimmed remainder is the first name;
otherwise white-space tokens decide the split. -/
def splitNameSpec (name : String) : String × String :=
  let t := trimSpace name
  if t.toList.contains ',' then
    (trimSpace (String.mk ((t.toList.dropWhile fun c => decide (c ≠ ',')).drop 1)),
     trimSpace (String.mk (t.toList.takeWhile fun c => decide (c ≠ ','))))
  else
    match fieldsGo t with
    | [] => ("", "")
    | [w] => ("", w)
    | w :: x :: xs => (w, xs.getLastD x)

/-! ## Canonical record model (database.go structs) -/

/-- `Author` struct from database.go. -/
structure Author where
  name : String
  firstName : String
  lastName : String
  agentID : String
  aliasStr : String
  webpage : String
  birthYear : Option Int
  deathYear : Option Int
  deriving DecidableEq, Repr

/-- `Format` struct from database.go. -/
structure Format where
  type : String
  fileURL : String
  fileSize : Option Int
  deriving DecidableEq, Repr

/-- `Book` struct from database.go. -/
structure Book where
  gutenbergID : String
  title : String
  language : String
  publisher : String
  license : String
  rights : String
  issuedDate : String
  downloadCount : Int
  description : String
  summary : String
  productionNotes : String
  readingEaseScore : String
  authors : List Author
  subjects : List String
  bookshelves : List String
  formats : List Format
  deriving DecidableEq, Repr

/-! ## Decoded RDF document model (src/unnamed/part_001, richer version).
The XML decoding itself is done by Go's `encoding/xml`; the embedding starts
from the decoded structures.  A nested single-value `Description` element is
carried as an `Option String` (absent pointer versus present value). -/

/-- `Language` element: nested description value, resource attribute, chardata. -/
structure LanguageElem where
  description : Option String
  resource : String
  value : String
  deriving DecidableEq, Repr

/-- `Agent` element. -/
structure AgentE where
  about : String
  name : String
  birthDate : String
  deathDate : String
  aliases : List String
  webpage : List String
  deriving DecidableEq, Repr

/-- `Creator` element: optional nested agent. -/
structure CreatorE where
  agent : Option AgentE
  deriving DecidableEq, Repr

/-- `hasFormat` file element: about attribute, extent, nested format value. -/
structure FileE where
  about : String
  extent : String
  format : Option String
  deriving DecidableEq, Repr

/-- `hasFormat` element: optional nested file. -/
structure RDFFormatE where
  file : Option FileE
  deriving DecidableEq, Repr

/-- `Ebook` element. -/
structure Ebook where
  about : String
  title : String
  creator : List CreatorE
  subject : List (Option String)
  language : List LanguageElem
  rights : String
  issued : String
  downloads : String
  format : List RDFFormatE
  publisher : String
  licenseResource : String
  description : List String
  marc508 : String
  marc520 : String
  marc908 : String
  bookshelf : List (Option String)
  deriving DecidableEq, Repr

/-- Decoded `RDFDocument`: the ebook element may be absent. -/
structure RDFDocument where
  ebook : Option Ebook
  deriving DecidableEq, Repr

/-- Language fallback chain from `ParseRDF`: keep the current value if already
non-empty, otherwise nested description value, then resource attribute
verbatim, then chardata. -/
def pickLanguage (cur : String) (l : LanguageElem) : String :=
  if cur ≠ "" then cur
  else if (l.description.getD "") ≠ "" then trimSpace (l.description.getD "")
  else if l.resource ≠ "" then l.resource
  else if l.value ≠ "" then trimSpace l.value
  else cur

/-- Author built from one `creator` agent in `ParseRDF`. -/
def authorOfAgent (ag : AgentE) : Author :=
  let fullName := trimSpace ag.name
  let split := splitName fullName
  { name := fullName
    firstName := split.1
    lastName := split.2
    agentID := trimSpace ag.about
    aliasStr :=
      if ag.aliases.isEmpty then ""
      else String.intercalate "; " ((ag.aliases.map trimSpace).filter fun x => decide (x ≠ ""))
    webpage :=
      if ag.webpage.isEmpty then ""
      else String.intercalate "; " ((ag.webpage.map trimSpace).filter fun x => decide (x ≠ ""))
    birthYear := if ag.birthDate ≠ "" then extractYear ag.birthDate else none
    deathYear := if ag.deathDate ≠ "" then extractYear ag.deathDate else none }

/-- Format built from one `hasFormat` file in `ParseRDF`. -/
def formatOfFile (fl : FileE) : Format :=
  let ty0 := match fl.format with
    | some v => trimSpace v
    | none => ""
  { type := if ty0 = "" then extractFormatFromURL fl.about else ty0
    fileURL := fl.about
    fileSize := if fl.extent ≠ "" then atoiGo (trimSpace fl.extent) else none }

/-- Record construction of `ParseRDF` after the ebook-presence check. -/
def extractBook (eb : Ebook) : Book :=
  { gutenbergID := if eb.about ≠ "" then extractGutenbergID eb.about else ""
    title := trimSpace eb.title
    language := eb.language.foldl pickLanguage ""
    publisher := trimSpace eb.publisher
    license := trimSpace eb.licenseResource
    rights := trimSpace eb.rights
    issuedDate := trimSpace eb.issued
    downloadCount :=
      if eb.downloads ≠ "" then
        match atoiGo (trimSpace eb.downloads) with
        | some n => n
        | none => 0
      else 0
    description :=
      if eb.description.isEmpty then ""
      else String.intercalate "\n\n" ((eb.description.map trimSpace).filter fun x => decide (x ≠ ""))
    summary := trimSpace eb.marc520
    productionNotes := trimSpace eb.marc508
    readingEaseScore := trimSpace eb.marc908
    authors :=
      eb.creator.foldl
        (fun acc c =>
          match c.agent with
          | none => acc
          | some ag =>
            let a := authorOfAgent ag
            if a.name ≠ "" then acc ++ [a] else acc)
        []
    subjects :=
      eb.subject.foldl
        (fun acc d =>
          match d with
          | none => acc
          | some v => let t := trimSpace v; if t ≠ "" then acc ++ [t] else acc)
        []
    bookshelves :=
      eb.bookshelf.foldl
        (fun acc d =>
          match d with
          | none => acc
          | some v => let t := trimSpace v; if t ≠ "" then acc ++ [t] else acc)
        []
    formats :=
      eb.format.foldl
        (fun acc f =>
          match f.file with
          | none => acc
          | some fl =>
            let g := formatOfFile fl
            if g.fileURL ≠ "" then acc ++ [g] else acc)
        [] }

/-- `ParseRDF` after XML decoding: error when no ebook element is present,
otherwise the extracted record. -/
def parseRDF (doc : RDFDocument) : Except String Book :=
  match doc.ebook with
  | none => Except.error "no ebook element found"
  | some eb => Except.ok (extractBook eb)

/-! ## Entity store model (database.go schema and InsertBook).
Each table is a list of rows in insertion order; `AUTOINCREMENT` columns are
explicit `next…` counters.  `created_at` timestamps are abstract `Nat` values
supplied by the caller in place of `time.Now()`. -/

/-- Row of the `books` table. -/
structure BookRow where
  id : Nat
  gutenbergID : String
  title : String
  language : String
  publisher : String
  license : String
  rights : String
  issuedDate : String
  downloadCount : Int
  description : String
  summary : String
  productionNotes : String
  readingEaseScore : String
  createdAt : Nat
  deriving DecidableEq, Repr

/-- Row of the `authors` table. -/
structure AuthorRow where
  id : Nat
  name : String
  firstName : String
  lastName : String
  agentID : String
  aliasStr : String
  webpage : String
  birthYear : Option Int
  deathYear : Option Int
  createdAt : Nat
  deriving DecidableEq, Repr

/-- Row of the `subjects` table. -/
structure SubjectRow where
  id : Nat
  subject : String
  createdAt : Nat
  deriving DecidableEq, Repr

/-- Row of the `bookshelves` table. -/
structure BookshelfRow where
  id : Nat
  bookshelf : String
  createdAt : Nat
  deriving DecidableEq, Repr

/-- Row of the `formats` table. -/
structure FormatRow where
  id : Nat
  bookID : Nat
  formatType : String
  fileURL : String
  fileSize : Option Int
  deriving DecidableEq, Repr

/-- The whole relational store. -/
structure Store where
  books : List BookRow
  authors : List AuthorRow
  subjects : List SubjectRow
  bookshelves : List BookshelfRow
  bookAuthors : List (Nat × Nat)
  bookSubjects : List (Nat × Nat)
  bookBookshelves : List (Nat × Nat)
  formats : List FormatRow
  nextBookId : Nat
  nextAuthorId : Nat
  nextSubjectId : Nat
  nextBookshelfId : Nat
  nextFormatId : Nat
  deriving DecidableEq, Repr

/-- Replace the first element satisfying `p` by its image under `f`. -/
def updateFirst (p : α → Bool) (f : α → α) : List α → List α
  | [] => []
  | x :: xs => if p x then f x :: xs else x :: updateFirst p f xs

/-- Match on the `books` unique key. -/
def bookRowMatches (gid : String) (r : BookRow) : Bool :=
  decide (r.gutenbergID = gid)

/-- `BookExists`: `SELECT COUNT(*) FROM books WHERE gutenberg_id = ?` is
positive. -/
def bookExists (s : Store) (gid : String) : Bool :=
  s.books.any (bookRowMatches gid)

/-- Null-safe identity comparison from the author lookup:
`COALESCE(year, -1)`. -/
def identSentinel (y : Option Int) : Int :=
  y.getD (-1)

/-- Author identity lookup predicate of `InsertBook` (name plus both years
under the `-1` sentinel). -/
def authorMatches (r : AuthorRow) (a : Author) : Bool :=
  decide (r.name = a.name
    ∧ identSentinel r.birthYear = identSentinel a.birthYear
    ∧ identSentinel r.deathYear = identSentinel a.deathYear)

/-- One column of the author conflict update:
`COALESCE(NULLIF(incoming, ''), stored)`. -/
def fillEmpty (incoming stored : String) : String :=
  if incoming = "" then stored else incoming

/-- The `UPDATE authors SET … WHERE id = ?` statement of `InsertBook`. -/
def backfillAuthor (a : Author) (r : AuthorRow) : AuthorRow :=
  { r with
    firstName := fillEmpty a.firstName r.firstName
    lastName := fillEmpty a.lastName r.lastName
    agentID := fillEmpty a.agentID r.agentID
    aliasStr := fillEmpty a.aliasStr r.aliasStr
    webpage := fillEmpty a.webpage r.webpage }

/-- Fresh `authors` row from an incoming author. -/
def newAuthorRow (now : Nat) (id : Nat) (a : Author) : AuthorRow :=
  { id
    name := a.name
    firstName := a.firstName
    lastName := a.lastName
    agentID := a.agentID
    aliasStr := a.aliasStr
    webpage := a.webpage
    birthYear := a.birthYear
    deathYear := a.deathYear
    createdAt := now }

/-- Fresh `books` row from an incoming book. -/
def newBookRow (now : Nat) (id : Nat) (b : Book) : BookRow :=
  { id
    gutenbergID := b.gutenbergID
    title := b.title
    language := b.language
    publisher := b.publisher
    license := b.license
    rights := b.rights
    issuedDate := b.issuedDate
    downloadCount := b.downloadCount
    description := b.description
    summary := b.summary
    productionNotes := b.productionNotes
    readingEaseScore := b.readingEaseScore
    createdAt := now }

/-- The `ON CONFLICT(gutenberg_id) DO UPDATE` column list: scalar fields only,
`created_at` and the key are untouched. -/
def updateBookScalars (b : Book) (r : BookRow) : BookRow :=
  { r with
    title := b.title
    language := b.language
    publisher := b.publisher
    license := b.license
    rights := b.rights
    issuedDate := b.issuedDate
    downloadCount := b.downloadCount
    description := b.description
    summary := b.summary
    productionNotes := b.productionNotes
    readingEaseScore := b.readingEaseScore }

/-- `INSERT INTO books … ON CONFLICT(gutenberg_id) DO UPDATE SET …`. -/
def upsertBookStep (now : Nat) (b : Book) (s : Store) : Store :=
  match s.books.find? (bookRowMatches b.gutenbergID) with
  | some _ =>
    { s with books := updateFirst (bookRowMatches b.gutenbergID) (updateBookScalars b) s.books }
  | none =>
    { s with
      books := s.books ++ [newBookRow now s.nextBookId b]
      nextBookId := s.nextBookId + 1 }

/-- `SELECT id FROM books WHERE gutenberg_id = ?`. -/
def bookIdOf (s : Store) (gid : String) : Option Nat :=
  (s.books.find? (bookRowMatches gid)).map (·.id)

/-- `INSERT OR IGNORE INTO book_authors`. -/
def linkAuthor (s : Store) (bid aid : Nat) : Store :=
  if (bid, aid) ∈ s.bookAuthors then s
  else { s with bookAuthors := s.bookAuthors ++ [(bid, aid)] }

/-- `INSERT OR IGNORE INTO book_subjects`. -/
def linkSubject (s : Store) (bid sid : Nat) : Store :=
  if (bid, sid) ∈ s.bookSubjects then s
  else { s with bookSubjects := s.bookSubjects ++ [(bid, sid)] }

/-- `INSERT OR IGNORE INTO book_bookshelves`. -/
def linkBookshelf (s : Store) (bid shid : Nat) : Store :=
  if (bid, shid) ∈ s.bookBookshelves then s
  else { s with bookBookshelves := s.bookBookshelves ++ [(bid, shid)] }

/-- Author phase of `InsertBook` for one incoming author: identity lookup,
then conflict backfill or fresh insert, then the association row. -/
def insertAuthorStep (now bid : Nat) (s : Store) (a : Author) : Store :=
  match s.authors.find? (fun r => authorMatches r a) with
  | some row =>
    linkAuthor
      { s with authors := updateFirst (fun r => authorMatches r a) (backfillAuthor a) s.authors }
      bid row.id
  | none =>
    linkAuthor
      { s with
        authors := s.authors ++ [newAuthorRow now s.nextAuthorId a]
        nextAuthorId := s.nextAuthorId + 1 }
      bid s.nextAuthorId

/-- Match on the `subjects` unique string. -/
def subjRowMatches (v : String) (r : SubjectRow) : Bool :=
  decide (r.subject = v)

/-- Match on the `bookshelves` unique string. -/
def shelfRowMatches (v : String) (r : BookshelfRow) : Bool :=
  decide (r.bookshelf = v)

/-- Subject phase of `InsertBook` for one incoming subject string. -/
def insertSubjectStep (now bid : Nat) (s : Store) (v : String) : Store :=
  match s.subjects.find? (subjRowMatches v) with
  | some row => linkSubject s bid row.id
  | none =>
    linkSubject
      { s with
        subjects := s.subjects ++ [⟨s.nextSubjectId, v, now⟩]
        nextSubjectId := s.nextSubjectId + 1 }
      bid s.nextSubjectId

/-- Bookshelf phase of `InsertBook` for one incoming bookshelf string. -/
def insertBookshelfStep (now bid : Nat) (s : Store) (v : String) : Store :=
  match s.bookshelves.find? (shelfRowMatches v) with
  | some row => linkBookshelf s bid row.id
  | none =>
    linkBookshelf
      { s with
        bookshelves := s.bookshelves ++ [⟨s.nextBookshelfId, v, now⟩]
        nextBookshelfId := s.nextBookshelfId + 1 }
      bid s.nextBookshelfId

/-- `INSERT INTO formats …` for one incoming format. -/
def insertFormatStep (bid : Nat) (s : Store) (f : Format) : Store :=
  { s with
    formats := s.formats ++ [⟨s.nextFormatId, bid, f.type, f.fileURL, f.fileSize⟩]
    nextFormatId := s.nextFormatId + 1 }

/-- Body of `InsertBook` after the book row upsert and id lookup, in source
order: authors, subjects, conditional format delete, bookshelves, format
inserts. -/
def insertBookRest (now : Nat) (b : Book) (bid : Nat) (s1 : Store) : Store :=
  let s2 := b.authors.foldl (insertAuthorStep now bid) s1
  let s3 := b.subjects.foldl (insertSubjectStep now bid) s2
  let s4 :=
    if b.formats.isEmpty then s3
    else { s3 with formats := s3.formats.filter fun r => decide (r.bookID ≠ bid) }
  let s5 := b.bookshelves.foldl (insertBookshelfStep now bid) s4
  b.formats.foldl (insertFormatStep bid) s5

/-- `InsertBook` with every SQL statement succeeding.  The inner `none` branch
is unreachable: the upsert always leaves a row with the book's key (shown in
the lemmas below). -/
def insertBookOk (now : Nat) (s : Store) (b : Book) : Store :=
  let s1 := upsertBookStep now b s
  match s1.books.find? (bookRowMatches b.gutenbergID) with
  | none => s1
  | some row => insertBookRest now b row.id s1

/-- Content of a `formats` row, with the generated row id stripped. -/
def fmtContent (r : FormatRow) : String × String × Option Int :=
  (r.formatType, r.fileURL, r.fileSize)

/-- Content of an incoming format. -/
def fContent (f : Format) : String × String × Option Int :=
  (f.type, f.fileURL, f.fileSize)

/-- The format rows owned by one book. -/
def ownedFormats (s : Store) (bid : Nat) : List FormatRow :=
  s.formats.filter fun r => decide (r.bookID = bid)

/-! ## Fallible transaction model for `InsertBook`.
Every SQL round trip (`Begin`, `Exec`, `QueryRow`, `Commit`) may fail for
environmental reasons; failures are injected by an oracle indexed by the
position of the statement in the call.  A transaction value threads the
statement counter and the transaction-local store; `Except.error` means the
driver reported an error, the Go code returned it, and the deferred
`Rollback` discarded the transaction. -/

/-- Transaction computation: statement counter and tx-local store in,
either an error or a value with the updated counter and store. -/
def TxM (α : Type) : Type :=
  Nat × Store → Except String (α × Nat × Store)

/-- Transaction result. -/
def txPure (a : α) : TxM α :=
  fun ns => Except.ok (a, ns.1, ns.2)

/-- Transaction sequencing: an error aborts the rest of the body, exactly as
each `if err != nil { return … }` in the source. -/
def txBind (m : TxM α) (k : α → TxM β) : TxM β :=
  fun ns =>
    match m ns with
    | Except.error e => Except.error e
    | Except.ok (a, n, s) => k a (n, s)

/-- An `Exec` statement that also yields a value (e.g. `LastInsertId`). -/
def txExecRet (failAt : Nat → Bool) (msg : String) (f : Store → α × Store) : TxM α :=
  fun ns =>
    if failAt ns.1 then Except.error msg
    else Except.ok ((f ns.2).1, ns.1 + 1, (f ns.2).2)

/-- A plain `Exec` statement. -/
def txExec (failAt : Nat → Bool) (msg : String) (f : Store → Store) : TxM Unit :=
  txExecRet failAt msg fun s => ((), f s)

/-- A read-only `QueryRow` statement. -/
def txQuery (failAt : Nat → Bool) (msg : String) (q : Store → α) : TxM α :=
  txExecRet failAt msg fun s => (q s, s)

/-- An unconditional error return (e.g. `Scan` finding no row where one is
required). -/
def txFail (msg : String) : TxM α :=
  fun _ => Except.error msg

/-- Author phase of `InsertBook`, transactional form. -/
def txAuthorStep (failAt : Nat → Bool) (now bid : Nat) (a : Author) : TxM Unit :=
  txBind (txQuery failAt "failed to query author" fun s => s.authors.find? (fun r => authorMatches r a))
    fun found =>
      match found with
      | some row =>
        txBind (txExec failAt "failed to update author" fun s =>
            { s with authors := updateFirst (fun r => authorMatches r a) (backfillAuthor a) s.authors })
          fun _ => txExec failAt "failed to link author" fun s => linkAuthor s bid row.id
      | none =>
        txBind (txExecRet failAt "failed to insert author" fun s =>
            (s.nextAuthorId,
              { s with
                authors := s.authors ++ [newAuthorRow now s.nextAuthorId a]
                nextAuthorId := s.nextAuthorId + 1 }))
          fun aid => txExec failAt "failed to link author" fun s => linkAuthor s bid aid

/-- Author loop of `InsertBook`, transactional form. -/
def txAuthorLoop (failAt : Nat → Bool) (now bid : Nat) : List Author → TxM Unit
  | [] => txPure ()
  | a :: as => txBind (txAuthorStep failAt now bid a) fun _ => txAuthorLoop failAt now bid as

/-- Subject phase for one subject, transactional form. -/
def txSubjectStep (failAt : Nat → Bool) (now bid : Nat) (v : String) : TxM Unit :=
  txBind (txQuery failAt "failed to query subject" fun s => s.subjects.find? (subjRowMatches v))
    fun found =>
      match found with
      | some row => txExec failAt "failed to link subject" fun s => linkSubject s bid row.id
      | none =>
        txBind (txExecRet failAt "failed to insert subject" fun s =>
            (s.nextSubjectId,
              { s with
                subjects := s.subjects ++ [⟨s.nextSubjectId, v, now⟩]
                nextSubjectId := s.nextSubjectId + 1 }))
          fun sid => txExec failAt "failed to link subject" fun s => linkSubject s bid sid

/-- Subject loop, transactional form. -/
def txSubjectLoop (failAt : Nat → Bool) (now bid : Nat) : List String → TxM Unit
  | [] => txPure ()
  | v :: vs => txBind (txSubjectStep failAt now bid v) fun _ => txSubjectLoop failAt now bid vs

/-- Bookshelf phase for one bookshelf, transactional form. -/
def txBookshelfStep (failAt : Nat → Bool) (now bid : Nat) (v : String) : TxM Unit :=
  txBind (txQuery failAt "failed to query bookshelf" fun s => s.bookshelves.find? (shelfRowMatches v))
    fun found =>
      match found with
      | some row => txExec failAt "failed to link bookshelf" fun s => linkBookshelf s bid row.id
      | none =>
        txBind (txExecRet failAt "failed to insert bookshelf" fun s =>
            (s.nextBookshelfId,
              { s with
                bookshelves := s.bookshelves ++ [⟨s.nextBookshelfId, v, now⟩]
                nextBookshelfId := s.nextBookshelfId + 1 }))
          fun shid => txExec failAt "failed to link bookshelf" fun s => linkBookshelf s bid shid

/-- Bookshelf loop, transactional form. -/
def txBookshelfLoop (failAt : Nat → Bool) (now bid : Nat) : List String → TxM Unit
  | [] => txPure ()
  | v :: vs => txBind (txBookshelfStep failAt now bid v) fun _ => txBookshelfLoop failAt now bid vs

/-- Format insert loop, transactional form. -/
def txFormatLoop (failAt : Nat → Bool) (bid : Nat) : List Format → TxM Unit
  | [] => txPure ()
  | f :: fs =>
    txBind (txExec failAt "failed to insert format" fun s => insertFormatStep bid s f)
      fun _ => txFormatLoop failAt bid fs

/-- Conditional format delete: no SQL statement is issued when the incoming
format list is empty. -/
def txFormatDelete (failAt : Nat → Bool) (b : Book) (bid : Nat) : TxM Unit :=
  if b.formats.isEmpty then txPure ()
  else
    txExec failAt "failed to delete existing formats" fun s =>
      { s with formats := s.formats.filter fun r => decide (r.bookID ≠ bid) }

/-- The transaction body of `InsertBook`: begin, book upsert, id lookup, the
four phases in source order. -/
def txInsertBody (failAt : Nat → Bool) (now : Nat) (b : Book) : TxM Unit :=
  txBind (txExec failAt "failed to begin transaction" fun s => s)
    fun _ =>
  txBind (txExec failAt "failed to insert book" (upsertBookStep now b))
    fun _ =>
  txBind (txQuery failAt "failed to get book ID" fun s => bookIdOf s b.gutenbergID)
    fun idOpt =>
      match idOpt with
      | none => txFail "failed to get book ID"
      | some bid =>
        txBind (txAuthorLoop failAt now bid b.authors) fun _ =>
        txBind (txSubjectLoop failAt now bid b.subjects) fun _ =>
        txBind (txFormatDelete failAt b bid) fun _ =>
        txBind (txBookshelfLoop failAt now bid b.bookshelves) fun _ =>
        txFormatLoop failAt bid b.formats

/-- `InsertBook`: run the body from the caller's committed store, then
`Commit` (one more fallible statement).  On success the new committed store is
returned; on error the transaction was rolled back. -/
def insertBookTx (failAt : Nat → Bool) (now : Nat) (s : Store) (b : Book) : Except String Store :=
  match txInsertBody failAt now b (0, s) with
  | Except.error e => Except.error e
  | Except.ok (_, n, s') =>
    if failAt n then Except.error "failed to commit transaction"
    else Except.ok s'

/-- Committed state seen by the caller after the call: the transaction result
on commit, the original store on rollback. -/
def committedAfter (r : Except String Store) (s : Store) : Store :=
  match r with
  | Except.ok s' => s'
  | Except.error _ => s

/-! ## BatchInsertBooks (database.go). -/

/-- One `InsertBook` call inside a batch: a failure is logged and skipped, the
store keeps its committed state. -/
def tryIns (ins : Store → Book → Except String Store) (st : Store) (bk : Book) : Store :=
  match ins st bk with
  | Except.ok st' => st'
  | Except.error _ => st

/-- The chunked index loop of `BatchInsertBooks`.  `fuel` bounds the number of
outer iterations; with a positive batch size `books.length + 1` is never
exhausted.  The Go slice `books[i:end]` with the clamped `end` is
`(books.drop i).take batchSize`. -/
def batchGo (ins : Store → Book → Except String Store) (books : List Book) (batchSize : Nat) :
    Nat → Nat → Store → Store
  | 0, _, s => s
  | fuel + 1, i, s =>
    if i < books.length then
      batchGo ins books batchSize fuel (i + batchSize)
        (((books.drop i).take batchSize).foldl (tryIns ins) s)
    else s

/-- `BatchInsertBooks`: every per-book error is swallowed and the function
returns `nil`. -/
def BatchInsertBooks (ins : Store → Book → Except String Store) (s : Store) (books : List Book)
    (batchSize : Nat) : Except String Store :=
  Except.ok (batchGo ins books batchSize (books.length + 1) 0 s)

/-! ## Import engine model (src/unnamed/part_003).
One worker consuming its share of the document list sequentially; the
statistics counters are mutex-guarded in the source, so each recorded event
is one of the atomic `Record…` updates below.  A document carries its parse
outcome (file reading and XML decoding are outside the embedding); the
existence query is modelled as infallible. -/

/-- `ImportStats` counters and capped error sample. -/
structure WStats where
  totalFiles : Nat
  processed : Nat
  successful : Nat
  failed : Nat
  skipped : Nat
  errors : List String
  deriving DecidableEq, Repr

/-- `RecordSuccess`. -/
def recordSuccess (st : WStats) : WStats :=
  { st with processed := st.processed + 1, successful := st.successful + 1 }

/-- `RecordFailure`: append the message, keep only the last 100 when the
sample exceeds the bound. -/
def recordFailure (e : String) (st : WStats) : WStats :=
  let es := st.errors ++ [e]
  { st with
    processed := st.processed + 1
    failed := st.failed + 1
    errors := if es.length > 100 then es.drop (es.length - 100) else es }

/-- `RecordSkipped`. -/
def recordSkipped (st : WStats) : WStats :=
  { st with processed := st.processed + 1, skipped := st.skipped + 1 }

/-- One input document: its path and the outcome of `ParseRDFFile` on it. -/
structure Doc where
  path : String
  parse : Except String Book
  deriving Repr

/-- Worker configuration: resume flag, batch size, abstract clock, and the
statement-failure oracle for the `k`-th `InsertBook` call of this worker. -/
structure WCfg where
  resume : Bool
  batchSize : Nat
  now : Nat
  fail : Nat → Nat → Bool

/-- Worker state: committed store, private batch buffer, statistics, and the
count of `InsertBook` calls made so far. -/
structure WState where
  store : Store
  batch : List Book
  stats : WStats
  calls : Nat

/-- The resume-skip test of `worker`: resume on, parse succeeded, identifier
non-empty, and the identifier already committed. -/
def skipCond (cfg : WCfg) (st : Store) (d : Doc) : Bool :=
  cfg.resume &&
    match d.parse with
    | Except.ok b => decide (b.gutenbergID ≠ "") && bookExists st b.gutenbergID
    | Except.error _ => false

/-- One `InsertBook` call from `insertBatch`: update the committed store and
record the outcome. -/
def insertOne (cfg : WCfg) (σ : WState) (bk : Book) : WState :=
  match insertBookTx (cfg.fail σ.calls) cfg.now σ.store bk with
  | Except.ok s' =>
    { σ with store := s', stats := recordSuccess σ.stats, calls := σ.calls + 1 }
  | Except.error e =>
    { σ with
      stats := recordFailure ("failed to insert book " ++ bk.gutenbergID ++ ": " ++ e) σ.stats
      calls := σ.calls + 1 }

/-- `insertBatch`: insert every book of the private buffer, then clear it. -/
def insertBatchW (cfg : WCfg) (σ : WState) : WState :=
  σ.batch.foldl (insertOne cfg) { σ with batch := [] }

/-- `worker` loop body for one document. -/
def processDoc (cfg : WCfg) (σ : WState) (d : Doc) : WState :=
  if skipCond cfg σ.store d then { σ with stats := recordSkipped σ.stats }
  else
    match d.parse with
    | Except.error e =>
      { σ with stats := recordFailure ("failed to parse " ++ d.path ++ ": " ++ e) σ.stats }
    | Except.ok bk =>
      if bk.gutenbergID = "" then
        { σ with stats := recordFailure ("no Gutenberg ID found in " ++ d.path) σ.stats }
      else
        let σ' := { σ with batch := σ.batch ++ [bk] }
        if cfg.batchSize ≤ σ'.batch.length then insertBatchW cfg σ' else σ'

/-- Initial worker state over a committed store. -/
def initWState (s0 : Store) (total : Nat) : WState :=
  { store := s0
    batch := []
    stats := { totalFiles := total, processed := 0, successful := 0, failed := 0, skipped := 0, errors := [] }
    calls := 0 }

/-- `worker`: process every document, then flush the remaining batch. -/
def workerRun (cfg : WCfg) (docs : List Doc) (s0 : Store) : WState :=
  let σ := docs.foldl (processDoc cfg) (initWState s0 docs.length)
  if σ.batch.isEmpty then σ else insertBatchW cfg σ

/-! ## Concrete fixtures used by witnesses and counterexamples -/

/-- A store with empty tables. -/
def emptyStore : Store :=
  { books := []
    authors := []
    subjects := []
    bookshelves := []
    bookAuthors := []
    bookSubjects := []
    bookBookshelves := []
    formats := []
    nextBookId := 1
    nextAuthorId := 1
    nextSubjectId := 1
    nextBookshelfId := 1
    nextFormatId := 1 }

/-- A sample incoming author. -/
def auth1 : Author :=
  { name := "Twain, Mark"
    firstName := "Mark"
    lastName := "Twain"
    agentID := ""
    aliasStr := ""
    webpage := ""
    birthYear := some 1835
    deathYear := some 1910 }

/-- A sample incoming format. -/
def fmt1 : Format :=
  { type := "text/plain", fileURL := "u1", fileSize := some 10 }

/-- A sample incoming book with one of everything. -/
def bk1 : Book :=
  { gutenbergID := "1"
    title := "T"
    language := "en"
    publisher := ""
    license := ""
    rights := ""
    issuedDate := ""
    downloadCount := 3
    description := ""
    summary := ""
    productionNotes := ""
    readingEaseScore := ""
    authors := [auth1]
    subjects := ["s"]
    bookshelves := ["bs"]
    formats := [fmt1] }

/-- The sample book with no formats. -/
def bkNoFmt : Book :=
  { bk1 with gutenbergID := "2", formats := [] }

/-- A stored author row whose alias is already non-empty. -/
def aRow0 : AuthorRow :=
  { id := 1
    name := "X"
    firstName := ""
    lastName := ""
    agentID := ""
    aliasStr := "A"
    webpage := ""
    birthYear := none
    deathYear := none
    createdAt := 0 }

/-- A store holding only `aRow0`. -/
def store0 : Store :=
  { emptyStore with authors := [aRow0], nextAuthorId := 2 }

/-- An incoming author with the same identity triple as `aRow0` but a
different non-empty alias. -/
def aIn0 : Author :=
  { name := "X"
    firstName := ""
    lastName := ""
    agentID := ""
    aliasStr := "B"
    webpage := ""
    birthYear := none
    deathYear := none }

/-- A book carrying `aIn0`, used to drive the backfill through the full
upsert. -/
def bk3 : Book :=
  { bk1 with gutenbergID := "3", authors := [aIn0], subjects := [], bookshelves := [], formats := [] }

/-- An ebook element whose downloads field is present but not numeric. -/
def ebook10 : Ebook :=
  { about := "http://www.gutenberg.org/ebooks/77"
    title := "T"
    creator := []
    subject := []
    language := []
    rights := ""
    issued := ""
    downloads := "n/a"
    format := []
    publisher := ""
    licenseResource := ""
    description := []
    marc508 := ""
    marc520 := ""
    marc908 := ""
    bookshelf := [] }

/-- The document wrapping `ebook10`. -/
def doc10 : RDFDocument :=
  { ebook := some ebook10 }

/-- An insert routine that always reports a driver failure, used to witness
that `BatchInsertBooks` swallows per-book errors. -/
def insAlwaysFail : Store → Book → Except String Store :=
  fun _ _ => Except.error "disk full"

/-! ## Predicates and correspondence notions used by the theorems -/

/-- Some stored author row carries this incoming author's identity triple. -/
def authorPresent (s : Store) (a : Author) : Prop :=
  ∃ r, r ∈ s.authors ∧ authorMatches r a = true

/-- Some stored subject row carries this string. -/
def subjPresent (s : Store) (v : String) : Prop :=
  ∃ r, r ∈ s.subjects ∧ subjRowMatches v r = true

/-- Some stored bookshelf row carries this string. -/
def shelfPresent (s : Store) (v : String) : Prop :=
  ∃ r, r ∈ s.bookshelves ∧ shelfRowMatches v r = true

/-- Some stored book row carries this identifier. -/
def bookPresent (s : Store) (gid : String) : Prop :=
  ∃ r, r ∈ s.books ∧ bookRowMatches gid r = true

/-- The book id `InsertBook` works with: id of the first row matching the key
after the upsert statement (0 is a placeholder for the unreachable no-row
case). -/
def theBid (now : Nat) (s : Store) (b : Book) : Nat :=
  match (upsertBookStep now b s).books.find? (bookRowMatches b.gutenbergID) with
  | some r => r.id
  | none => 0

/-- A transaction computation agrees with a pure state transformer: from any
statement counter and store it either fails, or returns exactly the pure
result. -/
def Agrees (m : TxM α) (g : Store → α × Store) : Prop :=
  ∀ n s, (∃ e, m (n, s) = Except.error e) ∨ ∃ n', m (n, s) = Except.ok ((g s).1, n', (g s).2)


/-! ## Theorems: extractor helpers -/

theorem yearScan_eq_suffixes (l : List Char) :
    yearScan l = ((suffixes l).find? fun t => (fourDigitHead t).isSome).bind fourDigitHead := by
  induction l with
  | nil => rfl
  | cons c rest ih =>
    simp only [suffixes, List.find?]
    cases h : fourDigitHead (c :: rest) with
    | some ds => simp [yearScan, h]
    | none => simp only [yearScan, h, Option.isSome_none]; exact ih

theorem gidScan_eq_suffixes (l : List Char) : gidScan l = firstSlashDigitSeg l := by
  unfold firstSlashDigitSeg
  induction l with
  | nil => rfl
  | cons c rest ih =>
    simp only [suffixes, List.find?]
    by_cases hc : c = '/'
    · subst hc
      by_cases hds : (rest.takeWhile Char.isDigit).isEmpty
      · simp only [gidScan, slashDigitsAt, if_pos rfl, if_true, if_pos hds, Option.isSome_none]
        exact ih
      · by_cases hb : boundaryOk (rest.drop (rest.takeWhile Char.isDigit).length)
        · simp only [gidScan, slashDigitsAt, if_pos rfl, if_true, if_neg hds, if_pos hb,
            Option.isSome_some, Option.some_bind]
        · simp only [gidScan, slashDigitsAt, if_pos rfl, if_true, if_neg hds, if_neg hb,
            Option.isSome_none]
          exact ih
    · simp only [gidScan, slashDigitsAt, if_neg hc, Option.isSome_none]
      exact ih

/-- C6 (corrected): the extracted year is the value of the leftmost window of
four consecutive digits, not of a maximal run of exactly four digits. -/
theorem extract_year_first_window (s : String) : extractYear s = firstFourWindow s := by
  unfold extractYear firstFourWindow
  rw [yearScan_eq_suffixes]

/-- C6 counterexample: on the five-digit run "12345" the code yields 1234
while the claimed exactly-four-digits rule yields no year at all. -/
theorem extract_year_counterexample :
    extractYear "12345" = some 1234 ∧ yearExactFourClaim "12345" = none ∧
      some (1234 : Int) ≠ none := by
  refine ⟨by decide, by decide, by decide⟩

/-- C5 (corrected): the extracted identifier is the first (leftmost)
slash-delimited digit run of the URI, empty when there is none; and a record
is returned whenever the ebook element is present, whatever the identifier. -/
theorem gutenberg_id_first_numeric_segment :
    (∀ uri : String,
        extractGutenbergID uri =
          match firstSlashDigitSeg uri.toList with
          | some ds => String.mk ds
          | none => "") ∧
      ∀ eb : Ebook, parseRDF ⟨some eb⟩ = Except.ok (extractBook eb) := by
  constructor
  · intro uri
    unfold extractGutenbergID
    rw [gidScan_eq_suffixes]
  · intro eb
    rfl

/-- C5 counterexample: with two numeric path segments the code takes the
first, while the claimed rule names the last. -/
theorem gutenberg_id_counterexample :
    extractGutenbergID "http://x/12/34" = "12" ∧
      lastAllDigitSegmentClaim "http://x/12/34" = "34" ∧ ("12" : String) ≠ "34" := by
  refine ⟨by decide, by decide, by decide⟩

/-- First component of the comma split is everything before the separator. -/
theorem splitAtFirst_fst (sep : Char) (l : List Char) :
    (splitAtFirst sep l).1 = l.takeWhile fun c => decide (c ≠ sep) := by
  induction l with
  | nil => rfl
  | cons c rest ih =>
    by_cases hc : c = sep
    · simp [splitAtFirst, hc, List.takeWhile_cons]
    · simp [splitAtFirst, hc, List.takeWhile_cons, ih]

/-- Second component of the comma split is everything after the first
separator. -/
theorem splitAtFirst_snd (sep : Char) (l : List Char) :
    (splitAtFirst sep l).2 = (l.dropWhile fun c => decide (c ≠ sep)).drop 1 := by
  induction l with
  | nil => rfl
  | cons c rest ih =>
    by_cases hc : c = sep
    · simp [splitAtFirst, hc, List.dropWhile_cons]
    · simp [splitAtFirst, hc, List.dropWhile_cons, ih]

/-- C7 (confirmed): the name split follows the comma rule, then the
white-space token rule, with the three documented examples. -/
theorem split_name_spec_correct :
    (∀ name : String, splitName name = splitNameSpec name) ∧
      splitName "Doyle, Arthur Conan" = ("Arthur Conan", "Doyle") ∧
      splitName "Mark Twain" = ("Mark", "Twain") ∧
      splitName "Voltaire" = ("", "Voltaire") := by
  refine ⟨?_, by decide, by decide, by decide⟩
  intro name
  unfold splitName splitNameSpec
  by_cases ht : trimSpace name = ""
  · rw [ht]
    decide
  · rw [if_neg ht]
    by_cases hc : (trimSpace name).toList.contains ','
    · rw [if_pos hc, if_pos hc]
      simp only [splitAtFirst_fst, splitAtFirst_snd]
    · rw [if_neg hc, if_neg hc]

/-- C10 (confirmed): a present but unparseable downloads field still yields a
record, whose download count is the zero default. -/
theorem downloads_malformed_defaults_zero (doc : RDFDocument) (eb : Ebook)
    (hdoc : doc.ebook = some eb) (hne : eb.downloads ≠ "")
    (hbad : atoiGo (trimSpace eb.downloads) = none) :
    parseRDF doc = Except.ok (extractBook eb) ∧ (extractBook eb).downloadCount = 0 := by
  constructor
  · unfold parseRDF
    rw [hdoc]
  · unfold extractBook
    simp only [if_pos hne, hbad]

/-- Witness for the downloads default at a concrete document. -/
theorem downloads_malformed_defaults_zero_witness :
    doc10.ebook = some ebook10 ∧ ebook10.downloads ≠ "" ∧
      atoiGo (trimSpace ebook10.downloads) = none ∧
      (parseRDF doc10 = Except.ok (extractBook ebook10) ∧ (extractBook ebook10).downloadCount = 0) :=
  ⟨rfl, by decide, by decide,
    downloads_malformed_defaults_zero doc10 ebook10 rfl (by decide) (by decide)⟩

/-! ## Theorems: generic list machinery for the store -/

/-- Updating the first match keeps the length. -/
theorem updateFirst_length (p : α → Bool) (f : α → α) (l : List α) :
    (updateFirst p f l).length = l.length := by
  induction l with
  | nil => rfl
  | cons x xs ih =>
    by_cases hx : p x
    · simp [updateFirst, hx]
    · simp [updateFirst, hx, ih]

/-- Finding after updating the first match, when the update preserves the
predicate. -/
theorem find?_updateFirst (p : α → Bool) (f : α → α) (hpf : ∀ x, p (f x) = p x) (l : List α) :
    (updateFirst p f l).find? p = (l.find? p).map f := by
  induction l with
  | nil => rfl
  | cons x xs ih =>
    by_cases hx : p x
    · have hfx : p (f x) = true := by rw [hpf]; exact hx
      simp [updateFirst, hx, List.find?_cons_of_pos _ hfx, List.find?_cons_of_pos _ hx]
    · have hfx : ¬ p x = true := hx
      simp only [updateFirst, if_neg hx, List.find?_cons_of_neg _ hfx]
      exact ih

/-- A row satisfying `q` survives updating the first `p`-match, when the
update preserves `q`. -/
theorem exists_updateFirst (p : α → Bool) (f : α → α) (q : α → Bool)
    (hq : ∀ x, q (f x) = q x) (l : List α) :
    (∃ r, r ∈ updateFirst p f l ∧ q r = true) ↔ ∃ r, r ∈ l ∧ q r = true := by
  induction l with
  | nil => simp [updateFirst]
  | cons x xs ih =>
    by_cases hx : p x
    · simp only [updateFirst, if_pos hx]
      constructor
      · rintro ⟨r, hr, hqr⟩
        rcases List.mem_cons.1 hr with h | h
        · exact ⟨x, List.mem_cons_self x xs, by rw [← hq x, ← h]; exact hqr⟩
        · exact ⟨r, List.mem_cons_of_mem _ h, hqr⟩
      · rintro ⟨r, hr, hqr⟩
        rcases List.mem_cons.1 hr with h | h
        · exact ⟨f x, List.mem_cons_self _ xs, by rw [hq x, ← h]; exact hqr⟩
        · exact ⟨r, List.mem_cons_of_mem _ h, hqr⟩
    · simp only [updateFirst, if_neg hx]
      constructor
      · rintro ⟨r, hr, hqr⟩
        rcases List.mem_cons.1 hr with h | h
        · exact ⟨x, List.mem_cons_self x xs, h ▸ hqr⟩
        · rcases ih.1 ⟨r, h, hqr⟩ with ⟨r', hr', hqr'⟩
          exact ⟨r', List.mem_cons_of_mem _ hr', hqr'⟩
      · rintro ⟨r, hr, hqr⟩
        rcases List.mem_cons.1 hr with h | h
        · exact ⟨x, List.mem_cons_self x (updateFirst p f xs), h ▸ hqr⟩
        · rcases ih.2 ⟨r, h, hqr⟩ with ⟨r', hr', hqr'⟩
          exact ⟨r', List.mem_cons_of_mem _ hr', hqr'⟩

/-- Finding in an append whose first part has no match. -/
theorem find?_append_none (p : α → Bool) (l₁ l₂ : List α) (h : l₁.find? p = none) :
    (l₁ ++ l₂).find? p = l₂.find? p := by
  induction l₁ with
  | nil => rfl
  | cons x xs ih =>
    have hx : ¬ p x = true := by
      intro hpx
      rw [List.find?_cons_of_pos _ hpx] at h
      exact Option.some_ne_none _ h
    rw [List.find?_cons_of_neg _ hx] at h
    simpa [List.find?_cons_of_neg _ hx] using ih h

/-- A match is found in a list exactly when one exists. -/
theorem find?_isSome_of_exists (p : α → Bool) (l : List α)
    (h : ∃ r, r ∈ l ∧ p r = true) : (l.find? p).isSome := by
  exact List.find?_isSome.2 ⟨h.choose, h.choose_spec.1, h.choose_spec.2⟩

/-! ## Theorems: frame and presence lemmas for the store phases -/

/-- A projection unchanged by every step is unchanged by the fold. -/
theorem foldl_preserves {β γ : Type} {α : Type} (g : β → γ) (step : β → α → β)
    (h : ∀ s a, g (step s a) = g s) (l : List α) (s : β) : g (l.foldl step s) = g s := by
  induction l generalizing s with
  | nil => rfl
  | cons x xs ih => rw [List.foldl_cons, ih, h]

/-- A property preserved by every step is preserved by the fold. -/
theorem foldl_pred (P : β → Prop) (step : β → α → β)
    (h : ∀ s a, P s → P (step s a)) (l : List α) (s : β) (hs : P s) : P (l.foldl step s) := by
  induction l generalizing s with
  | nil => exact hs
  | cons x xs ih => exact ih _ (h _ _ hs)

theorem linkAuthor_authors (s : Store) (bid aid : Nat) : (linkAuthor s bid aid).authors = s.authors := by
  unfold linkAuthor; split <;> rfl

theorem linkAuthor_books (s : Store) (bid aid : Nat) : (linkAuthor s bid aid).books = s.books := by
  unfold linkAuthor; split <;> rfl

theorem linkAuthor_subjects (s : Store) (bid aid : Nat) : (linkAuthor s bid aid).subjects = s.subjects := by
  unfold linkAuthor; split <;> rfl

theorem linkAuthor_bookshelves (s : Store) (bid aid : Nat) : (linkAuthor s bid aid).bookshelves = s.bookshelves := by
  unfold linkAuthor; split <;> rfl

theorem linkAuthor_formats (s : Store) (bid aid : Nat) : (linkAuthor s bid aid).formats = s.formats := by
  unfold linkAuthor; split <;> rfl

theorem linkSubject_books (s : Store) (bid sid : Nat) : (linkSubject s bid sid).books = s.books := by
  unfold linkSubject; split <;> rfl

theorem linkSubject_authors (s : Store) (bid sid : Nat) : (linkSubject s bid sid).authors = s.authors := by
  unfold linkSubject; split <;> rfl

theorem linkSubject_subjects (s : Store) (bid sid : Nat) : (linkSubject s bid sid).subjects = s.subjects := by
  unfold linkSubject; split <;> rfl

theorem linkSubject_bookshelves (s : Store) (bid sid : Nat) : (linkSubject s bid sid).bookshelves = s.bookshelves := by
  unfold linkSubject; split <;> rfl

theorem linkSubject_formats (s : Store) (bid sid : Nat) : (linkSubject s bid sid).formats = s.formats := by
  unfold linkSubject; split <;> rfl

theorem linkBookshelf_books (s : Store) (bid shid : Nat) : (linkBookshelf s bid shid).books = s.books := by
  unfold linkBookshelf; split <;> rfl

theorem linkBookshelf_authors (s : Store) (bid shid : Nat) : (linkBookshelf s bid shid).authors = s.authors := by
  unfold linkBookshelf; split <;> rfl

theorem linkBookshelf_subjects (s : Store) (bid shid : Nat) : (linkBookshelf s bid shid).subjects = s.subjects := by
  unfold linkBookshelf; split <;> rfl

theorem linkBookshelf_bookshelves (s : Store) (bid shid : Nat) : (linkBookshelf s bid shid).bookshelves = s.bookshelves := by
  unfold linkBookshelf; split <;> rfl

theorem linkBookshelf_formats (s : Store) (bid shid : Nat) : (linkBookshelf s bid shid).formats = s.formats := by
  unfold linkBookshelf; split <;> rfl

/-- The conflict backfill never touches the identity columns. -/
theorem backfill_matches (a a' : Author) (r : AuthorRow) :
    authorMatches (backfillAuthor a r) a' = authorMatches r a' := rfl

/-- A fresh author row matches its own incoming author. -/
theorem newAuthorRow_matches (now id : Nat) (a : Author) :
    authorMatches (newAuthorRow now id a) a = true := by
  simp [authorMatches, newAuthorRow]

theorem authorStep_books (now bid : Nat) (s : Store) (a : Author) :
    (insertAuthorStep now bid s a).books = s.books := by
  unfold insertAuthorStep
  cases s.authors.find? (fun r => authorMatches r a) <;> simp [linkAuthor_books]

theorem authorStep_subjects (now bid : Nat) (s : Store) (a : Author) :
    (insertAuthorStep now bid s a).subjects = s.subjects := by
  unfold insertAuthorStep
  cases s.authors.find? (fun r => authorMatches r a) <;> simp [linkAuthor_subjects]

theorem authorStep_bookshelves (now bid : Nat) (s : Store) (a : Author) :
    (insertAuthorStep now bid s a).bookshelves = s.bookshelves := by
  unfold insertAuthorStep
  cases s.authors.find? (fun r => authorMatches r a) <;> simp [linkAuthor_bookshelves]

theorem authorStep_formats (now bid : Nat) (s : Store) (a : Author) :
    (insertAuthorStep now bid s a).formats = s.formats := by
  unfold insertAuthorStep
  cases s.authors.find? (fun r => authorMatches r a) <;> simp [linkAuthor_formats]

/-- Author-phase authors table in the conflict case. -/
theorem authorStep_authors_found (now bid : Nat) (s : Store) (a : Author) (row : AuthorRow)
    (h : s.authors.find? (fun r => authorMatches r a) = some row) :
    (insertAuthorStep now bid s a).authors =
      updateFirst (fun r => authorMatches r a) (backfillAuthor a) s.authors := by
  unfold insertAuthorStep
  rw [h]
  simp [linkAuthor_authors]

/-- Author-phase authors table in the fresh-insert case. -/
theorem authorStep_authors_new (now bid : Nat) (s : Store) (a : Author)
    (h : s.authors.find? (fun r => authorMatches r a) = none) :
    (insertAuthorStep now bid s a).authors = s.authors ++ [newAuthorRow now s.nextAuthorId a] := by
  unfold insertAuthorStep
  rw [h]
  simp [linkAuthor_authors]

/-- The author phase preserves every identity already present. -/
theorem authorStep_preserves_present (now bid : Nat) (s : Store) (a a' : Author)
    (h : authorPresent s a') : authorPresent (insertAuthorStep now bid s a) a' := by
  cases hfind : s.authors.find? (fun r => authorMatches r a) with
  | some row =>
    unfold authorPresent
    rw [authorStep_authors_found now bid s a row hfind]
    exact (exists_updateFirst _ _ _ (fun x => backfill_matches a a' x) s.authors).2 h
  | none =>
    rcases h with ⟨r, hr, hm⟩
    exact ⟨r, by rw [authorStep_authors_new now bid s a hfind]; exact List.mem_append_left _ hr, hm⟩

/-- After its own step an author's identity is present. -/
theorem authorStep_self_present (now bid : Nat) (s : Store) (a : Author) :
    authorPresent (insertAuthorStep now bid s a) a := by
  cases hfind : s.authors.find? (fun r => authorMatches r a) with
  | some row =>
    have hrow : authorMatches row a = true := by
      have h2 := List.find?_some hfind
      simpa using h2
    have hmem : row ∈ s.authors := List.mem_of_find?_eq_some hfind
    unfold authorPresent
    rw [authorStep_authors_found now bid s a row hfind]
    exact (exists_updateFirst _ _ _ (fun x => backfill_matches a a x) s.authors).2 ⟨row, hmem, hrow⟩
  | none =>
    refine ⟨newAuthorRow now s.nextAuthorId a, ?_, newAuthorRow_matches _ _ _⟩
    rw [authorStep_authors_new now bid s a hfind]
    exact List.mem_append_right _ (List.mem_singleton.2 rfl)

/-- The author phase adds no row for an identity already present. -/
theorem authorStep_length (now bid : Nat) (s : Store) (a : Author)
    (h : authorPresent s a) :
    (insertAuthorStep now bid s a).authors.length = s.authors.length := by
  cases hfind : s.authors.find? (fun r => authorMatches r a) with
  | some row =>
    rw [authorStep_authors_found now bid s a row hfind, updateFirst_length]
  | none =>
    exfalso
    have := find?_isSome_of_exists _ _ h
    rw [hfind] at this
    exact Bool.noConfusion this

/-- Every author of the list is present after the author fold. -/
theorem authorFold_present_all (now bid : Nat) (as : List Author) (s : Store) :
    ∀ a ∈ as, authorPresent (as.foldl (insertAuthorStep now bid) s) a := by
  induction as generalizing s with
  | nil => intro a ha; cases ha
  | cons x xs ih =>
    intro a ha
    rcases List.mem_cons.1 ha with h | h
    · subst h
      rw [List.foldl_cons]
      exact foldl_pred _ _ (fun s' a' h' => authorStep_preserves_present now bid s' a' a h') xs _
        (authorStep_self_present now bid s a)
    · exact ih _ a h

/-- The author fold preserves presence. -/
theorem authorFold_preserves_present (now bid : Nat) (as : List Author) (s : Store) (a' : Author)
    (h : authorPresent s a') : authorPresent (as.foldl (insertAuthorStep now bid) s) a' :=
  foldl_pred _ _ (fun s' a h' => authorStep_preserves_present now bid s' a a' h') as s h

/-- The author fold adds no rows when every incoming identity is present. -/
theorem authorFold_length (now bid : Nat) (as : List Author) (s : Store)
    (h : ∀ a ∈ as, authorPresent s a) :
    (as.foldl (insertAuthorStep now bid) s).authors.length = s.authors.length := by
  induction as generalizing s with
  | nil => rfl
  | cons x xs ih =>
    rw [List.foldl_cons]
    rw [ih _ fun a ha => authorStep_preserves_present now bid s x a (h a (List.mem_cons_of_mem _ ha))]
    exact authorStep_length now bid s x (h x (List.mem_cons_self _ _))

theorem subjStep_books (now bid : Nat) (s : Store) (v : String) :
    (insertSubjectStep now bid s v).books = s.books := by
  unfold insertSubjectStep
  cases s.subjects.find? (subjRowMatches v) <;> simp [linkSubject_books]

theorem subjStep_authors (now bid : Nat) (s : Store) (v : String) :
    (insertSubjectStep now bid s v).authors = s.authors := by
  unfold insertSubjectStep
  cases s.subjects.find? (subjRowMatches v) <;> simp [linkSubject_authors]

theorem subjStep_bookshelves (now bid : Nat) (s : Store) (v : String) :
    (insertSubjectStep now bid s v).bookshelves = s.bookshelves := by
  unfold insertSubjectStep
  cases s.subjects.find? (subjRowMatches v) <;> simp [linkSubject_bookshelves]

theorem subjStep_formats (now bid : Nat) (s : Store) (v : String) :
    (insertSubjectStep now bid s v).formats = s.formats := by
  unfold insertSubjectStep
  cases s.subjects.find? (subjRowMatches v) <;> simp [linkSubject_formats]

/-- Subject-phase subjects table in the two cases. -/
theorem subjStep_subjects_found (now bid : Nat) (s : Store) (v : String) (row : SubjectRow)
    (h : s.subjects.find? (subjRowMatches v) = some row) :
    (insertSubjectStep now bid s v).subjects = s.subjects := by
  unfold insertSubjectStep
  rw [h]
  simp [linkSubject_subjects]

theorem subjStep_subjects_new (now bid : Nat) (s : Store) (v : String)
    (h : s.subjects.find? (subjRowMatches v) = none) :
    (insertSubjectStep now bid s v).subjects = s.subjects ++ [⟨s.nextSubjectId, v, now⟩] := by
  unfold insertSubjectStep
  rw [h]
  simp [linkSubject_subjects]

theorem subjStep_preserves_present (now bid : Nat) (s : Store) (v v' : String)
    (h : subjPresent s v') : subjPresent (insertSubjectStep now bid s v) v' := by
  cases hfind : s.subjects.find? (subjRowMatches v) with
  | some row =>
    unfold subjPresent
    rw [subjStep_subjects_found now bid s v row hfind]
    exact h
  | none =>
    rcases h with ⟨r, hr, hm⟩
    exact ⟨r, by rw [subjStep_subjects_new now bid s v hfind]; exact List.mem_append_left _ hr, hm⟩

theorem subjStep_self_present (now bid : Nat) (s : Store) (v : String) :
    subjPresent (insertSubjectStep now bid s v) v := by
  cases hfind : s.subjects.find? (subjRowMatches v) with
  | some row =>
    have hrow : subjRowMatches v row = true := by
      have h2 := List.find?_some hfind
      simpa using h2
    have hmem : row ∈ s.subjects := List.mem_of_find?_eq_some hfind
    unfold subjPresent
    rw [subjStep_subjects_found now bid s v row hfind]
    exact ⟨row, hmem, hrow⟩
  | none =>
    refine ⟨⟨s.nextSubjectId, v, now⟩, ?_, by simp [subjRowMatches]⟩
    rw [subjStep_subjects_new now bid s v hfind]
    exact List.mem_append_right _ (List.mem_singleton.2 rfl)

theorem subjStep_length (now bid : Nat) (s : Store) (v : String)
    (h : subjPresent s v) :
    (insertSubjectStep now bid s v).subjects.length = s.subjects.length := by
  cases hfind : s.subjects.find? (subjRowMatches v) with
  | some row => rw [subjStep_subjects_found now bid s v row hfind]
  | none =>
    exfalso
    have h2 := find?_isSome_of_exists _ _ h
    rw [hfind] at h2
    exact Bool.noConfusion h2

theorem subjFold_present_all (now bid : Nat) (vs : List String) (s : Store) :
    ∀ v ∈ vs, subjPresent (vs.foldl (insertSubjectStep now bid) s) v := by
  induction vs generalizing s with
  | nil => intro v hv; cases hv
  | cons x xs ih =>
    intro v hv
    rcases List.mem_cons.1 hv with h | h
    · subst h
      rw [List.foldl_cons]
      exact foldl_pred _ _ (fun s' v' h' => subjStep_preserves_present now bid s' v' v h') xs _
        (subjStep_self_present now bid s v)
    · exact ih _ v h

theorem subjFold_preserves_present (now bid : Nat) (vs : List String) (s : Store) (v' : String)
    (h : subjPresent s v') : subjPresent (vs.foldl (insertSubjectStep now bid) s) v' :=
  foldl_pred _ _ (fun s' v h' => subjStep_preserves_present now bid s' v v' h') vs s h

theorem subjFold_length (now bid : Nat) (vs : List String) (s : Store)
    (h : ∀ v ∈ vs, subjPresent s v) :
    (vs.foldl (insertSubjectStep now bid) s).subjects.length = s.subjects.length := by
  induction vs generalizing s with
  | nil => rfl
  | cons x xs ih =>
    rw [List.foldl_cons]
    rw [ih _ fun v hv => subjStep_preserves_present now bid s x v (h v (List.mem_cons_of_mem _ hv))]
    exact subjStep_length now bid s x (h x (List.mem_cons_self _ _))

theorem shelfStep_books (now bid : Nat) (s : Store) (v : String) :
    (insertBookshelfStep now bid s v).books = s.books := by
  unfold insertBookshelfStep
  cases s.bookshelves.find? (shelfRowMatches v) <;> simp [linkBookshelf_books]

theorem shelfStep_authors (now bid : Nat) (s : Store) (v : String) :
    (insertBookshelfStep now bid s v).authors = s.authors := by
  unfold insertBookshelfStep
  cases s.bookshelves.find? (shelfRowMatches v) <;> simp [linkBookshelf_authors]

theorem shelfStep_subjects (now bid : Nat) (s : Store) (v : String) :
    (insertBookshelfStep now bid s v).subjects = s.subjects := by
  unfold insertBookshelfStep
  cases s.bookshelves.find? (shelfRowMatches v) <;> simp [linkBookshelf_subjects]

theorem shelfStep_formats (now bid : Nat) (s : Store) (v : String) :
    (insertBookshelfStep now bid s v).formats = s.formats := by
  unfold insertBookshelfStep
  cases s.bookshelves.find? (shelfRowMatches v) <;> simp [linkBookshelf_formats]

theorem shelfStep_bookshelves_found (now bid : Nat) (s : Store) (v : String) (row : BookshelfRow)
    (h : s.bookshelves.find? (shelfRowMatches v) = some row) :
    (insertBookshelfStep now bid s v).bookshelves = s.bookshelves := by
  unfold insertBookshelfStep
  rw [h]
  simp [linkBookshelf_bookshelves]

theorem shelfStep_bookshelves_new (now bid : Nat) (s : Store) (v : String)
    (h : s.bookshelves.find? (shelfRowMatches v) = none) :
    (insertBookshelfStep now bid s v).bookshelves = s.bookshelves ++ [⟨s.nextBookshelfId, v, now⟩] := by
  unfold insertBookshelfStep
  rw [h]
  simp [linkBookshelf_bookshelves]

theorem shelfStep_preserves_present (now bid : Nat) (s : Store) (v v' : String)
    (h : shelfPresent s v') : shelfPresent (insertBookshelfStep now bid s v) v' := by
  cases hfind : s.bookshelves.find? (shelfRowMatches v) with
  | some row =>
    unfold shelfPresent
    rw [shelfStep_bookshelves_found now bid s v row hfind]
    exact h
  | none =>
    rcases h with ⟨r, hr, hm⟩
    exact ⟨r, by rw [shelfStep_bookshelves_new now bid s v hfind]; exact List.mem_append_left _ hr, hm⟩

theorem shelfStep_self_present (now bid : Nat) (s : Store) (v : String) :
    shelfPresent (insertBookshelfStep now bid s v) v := by
  cases hfind : s.bookshelves.find? (shelfRowMatches v) with
  | some row =>
    have hrow : shelfRowMatches v row = true := by
      have h2 := List.find?_some hfind
      simpa using h2
    have hmem : row ∈ s.bookshelves := List.mem_of_find?_eq_some hfind
    unfold shelfPresent
    rw [shelfStep_bookshelves_found now bid s v row hfind]
    exact ⟨row, hmem, hrow⟩
  | none =>
    refine ⟨⟨s.nextBookshelfId, v, now⟩, ?_, by simp [shelfRowMatches]⟩
    rw [shelfStep_bookshelves_new now bid s v hfind]
    exact List.mem_append_right _ (List.mem_singleton.2 rfl)

theorem shelfStep_length (now bid : Nat) (s : Store) (v : String)
    (h : shelfPresent s v) :
    (insertBookshelfStep now bid s v).bookshelves.length = s.bookshelves.length := by
  cases hfind : s.bookshelves.find? (shelfRowMatches v) with
  | some row => rw [shelfStep_bookshelves_found now bid s v row hfind]
  | none =>
    exfalso
    have h2 := find?_isSome_of_exists _ _ h
    rw [hfind] at h2
    exact Bool.noConfusion h2

theorem shelfFold_present_all (now bid : Nat) (vs : List String) (s : Store) :
    ∀ v ∈ vs, shelfPresent (vs.foldl (insertBookshelfStep now bid) s) v := by
  induction vs generalizing s with
  | nil => intro v hv; cases hv
  | cons x xs ih =>
    intro v hv
    rcases List.mem_cons.1 hv with h | h
    · subst h
      rw [List.foldl_cons]
      exact foldl_pred _ _ (fun s' v' h' => shelfStep_preserves_present now bid s' v' v h') xs _
        (shelfStep_self_present now bid s v)
    · exact ih _ v h

theorem shelfFold_preserves_present (now bid : Nat) (vs : List String) (s : Store) (v' : String)
    (h : shelfPresent s v') : shelfPresent (vs.foldl (insertBookshelfStep now bid) s) v' :=
  foldl_pred _ _ (fun s' v h' => shelfStep_preserves_present now bid s' v v' h') vs s h

theorem shelfFold_length (now bid : Nat) (vs : List String) (s : Store)
    (h : ∀ v ∈ vs, shelfPresent s v) :
    (vs.foldl (insertBookshelfStep now bid) s).bookshelves.length = s.bookshelves.length := by
  induction vs generalizing s with
  | nil => rfl
  | cons x xs ih =>
    rw [List.foldl_cons]
    rw [ih _ fun v hv => shelfStep_preserves_present now bid s x v (h v (List.mem_cons_of_mem _ hv))]
    exact shelfStep_length now bid s x (h x (List.mem_cons_self _ _))

theorem fmtStep_books (bid : Nat) (s : Store) (f : Format) :
    (insertFormatStep bid s f).books = s.books := rfl

theorem fmtStep_authors (bid : Nat) (s : Store) (f : Format) :
    (insertFormatStep bid s f).authors = s.authors := rfl

theorem fmtStep_subjects (bid : Nat) (s : Store) (f : Format) :
    (insertFormatStep bid s f).subjects = s.subjects := rfl

theorem fmtStep_bookshelves (bid : Nat) (s : Store) (f : Format) :
    (insertFormatStep bid s f).bookshelves = s.bookshelves := rfl

/-- The scalar update leaves the unique key untouched. -/
theorem updateBookScalars_matches (gid : String) (b : Book) (r : BookRow) :
    bookRowMatches gid (updateBookScalars b r) = bookRowMatches gid r := rfl

/-- A fresh book row matches its own key. -/
theorem newBookRow_matches (now id : Nat) (b : Book) :
    bookRowMatches b.gutenbergID (newBookRow now id b) = true := by
  simp [bookRowMatches, newBookRow]

theorem upsert_authors (now : Nat) (b : Book) (s : Store) :
    (upsertBookStep now b s).authors = s.authors := by
  unfold upsertBookStep
  cases s.books.find? (bookRowMatches b.gutenbergID) <;> rfl

theorem upsert_subjects (now : Nat) (b : Book) (s : Store) :
    (upsertBookStep now b s).subjects = s.subjects := by
  unfold upsertBookStep
  cases s.books.find? (bookRowMatches b.gutenbergID) <;> rfl

theorem upsert_bookshelves (now : Nat) (b : Book) (s : Store) :
    (upsertBookStep now b s).bookshelves = s.bookshelves := by
  unfold upsertBookStep
  cases s.books.find? (bookRowMatches b.gutenbergID) <;> rfl

theorem upsert_formats (now : Nat) (b : Book) (s : Store) :
    (upsertBookStep now b s).formats = s.formats := by
  unfold upsertBookStep
  cases s.books.find? (bookRowMatches b.gutenbergID) <;> rfl

/-- After the upsert statement a row with the book's key is always found, and
the id it carries is stable under the conflict update. -/
theorem upsert_find (now : Nat) (b : Book) (s : Store) :
    (upsertBookStep now b s).books.find? (bookRowMatches b.gutenbergID) =
      ((s.books.find? (bookRowMatches b.gutenbergID)).map (updateBookScalars b)).orElse
        fun _ => some (newBookRow now s.nextBookId b) := by
  unfold upsertBookStep
  cases hfind : s.books.find? (bookRowMatches b.gutenbergID) with
  | some r =>
    show (updateFirst _ _ s.books).find? _ = _
    rw [find?_updateFirst _ _ (fun x => updateBookScalars_matches b.gutenbergID b x) s.books, hfind]
    rfl
  | none =>
    show (s.books ++ [newBookRow now s.nextBookId b]).find? _ = _
    rw [find?_append_none _ _ _ hfind]
    simp [List.find?, newBookRow_matches]

/-- The book id used by `InsertBook`, as a function of the pre-state. -/
theorem theBid_eq (now : Nat) (s : Store) (b : Book) :
    theBid now s b =
      match s.books.find? (bookRowMatches b.gutenbergID) with
      | some r => r.id
      | none => s.nextBookId := by
  unfold theBid
  rw [upsert_find]
  cases hfind : s.books.find? (bookRowMatches b.gutenbergID) with
  | some r => rfl
  | none => rfl

/-- The inner id lookup of `InsertBook` never misses. -/
theorem upsert_find_isSome (now : Nat) (b : Book) (s : Store) :
    ((upsertBookStep now b s).books.find? (bookRowMatches b.gutenbergID)).isSome := by
  rw [upsert_find]
  cases s.books.find? (bookRowMatches b.gutenbergID) <;> rfl

/-- `InsertBook` is the upsert statement followed by the residual phases at
the found id. -/
theorem insertBookOk_eq (now : Nat) (s : Store) (b : Book) :
    insertBookOk now s b = insertBookRest now b (theBid now s b) (upsertBookStep now b s) := by
  simp only [insertBookOk, theBid]
  cases hfind : (upsertBookStep now b s).books.find? (bookRowMatches b.gutenbergID) with
  | some r => rfl
  | none =>
    exfalso
    have h2 := upsert_find_isSome now b s
    rw [hfind] at h2
    exact Bool.noConfusion h2

/-- The book row is present after the upsert. -/
theorem upsert_present (now : Nat) (b : Book) (s : Store) :
    bookPresent (upsertBookStep now b s) b.gutenbergID := by
  have h2 := upsert_find_isSome now b s
  cases hfind : (upsertBookStep now b s).books.find? (bookRowMatches b.gutenbergID) with
  | some r =>
    exact ⟨r, List.mem_of_find?_eq_some hfind, by
      have h3 := List.find?_some hfind
      simpa using h3⟩
  | none =>
    rw [hfind] at h2
    exact Bool.noConfusion h2

/-- The upsert adds no row when the key is already present. -/
theorem upsert_length (now : Nat) (b : Book) (s : Store)
    (h : bookPresent s b.gutenbergID) :
    (upsertBookStep now b s).books.length = s.books.length := by
  unfold upsertBookStep
  cases hfind : s.books.find? (bookRowMatches b.gutenbergID) with
  | some r => exact updateFirst_length _ _ _
  | none =>
    exfalso
    have h2 := find?_isSome_of_exists _ _ h
    rw [hfind] at h2
    exact Bool.noConfusion h2

/-- The residual phases never touch the books table. -/
theorem rest_books (now : Nat) (b : Book) (bid : Nat) (s1 : Store) :
    (insertBookRest now b bid s1).books = s1.books := by
  unfold insertBookRest
  rw [foldl_preserves (fun st => st.books) (insertFormatStep bid)
    (fun st f => fmtStep_books bid st f) b.formats]
  rw [foldl_preserves (fun st => st.books) (insertBookshelfStep now bid)
    (fun st v => shelfStep_books now bid st v) b.bookshelves]
  have hdel : ∀ s3 : Store,
      (if b.formats.isEmpty then s3
        else { s3 with formats := s3.formats.filter fun r => decide (r.bookID ≠ bid) }).books
        = s3.books := by
    intro s3; split <;> rfl
  rw [hdel]
  rw [foldl_preserves (fun st => st.books) (insertSubjectStep now bid)
    (fun st v => subjStep_books now bid st v) b.subjects]
  rw [foldl_preserves (fun st => st.books) (insertAuthorStep now bid)
    (fun st a => authorStep_books now bid st a) b.authors]

/-- The residual phases never remove author rows or identities. -/
theorem rest_authors (now : Nat) (b : Book) (bid : Nat) (s1 : Store) :
    (insertBookRest now b bid s1).authors =
      (b.authors.foldl (insertAuthorStep now bid) s1).authors := by
  unfold insertBookRest
  rw [foldl_preserves (fun st => st.authors) (insertFormatStep bid)
    (fun st f => fmtStep_authors bid st f) b.formats]
  rw [foldl_preserves (fun st => st.authors) (insertBookshelfStep now bid)
    (fun st v => shelfStep_authors now bid st v) b.bookshelves]
  have hdel : ∀ s3 : Store,
      (if b.formats.isEmpty then s3
        else { s3 with formats := s3.formats.filter fun r => decide (r.bookID ≠ bid) }).authors
        = s3.authors := by
    intro s3; split <;> rfl
  rw [hdel]
  rw [foldl_preserves (fun st => st.authors) (insertSubjectStep now bid)
    (fun st v => subjStep_authors now bid st v) b.subjects]

/-- The subjects table after the residual phases is the subject fold's. -/
theorem rest_subjects (now : Nat) (b : Book) (bid : Nat) (s1 : Store) :
    (insertBookRest now b bid s1).subjects =
      (b.subjects.foldl (insertSubjectStep now bid)
        (b.authors.foldl (insertAuthorStep now bid) s1)).subjects := by
  unfold insertBookRest
  rw [foldl_preserves (fun st => st.subjects) (insertFormatStep bid)
    (fun st f => fmtStep_subjects bid st f) b.formats]
  rw [foldl_preserves (fun st => st.subjects) (insertBookshelfStep now bid)
    (fun st v => shelfStep_subjects now bid st v) b.bookshelves]
  have hdel : ∀ s3 : Store,
      (if b.formats.isEmpty then s3
        else { s3 with formats := s3.formats.filter fun r => decide (r.bookID ≠ bid) }).subjects
        = s3.subjects := by
    intro s3; split <;> rfl
  rw [hdel]

/-- The bookshelves table after the residual phases is the bookshelf fold's. -/
theorem rest_bookshelves (now : Nat) (b : Book) (bid : Nat) (s1 : Store) :
    (insertBookRest now b bid s1).bookshelves =
      (b.bookshelves.foldl (insertBookshelfStep now bid)
        (if b.formats.isEmpty then
          (b.subjects.foldl (insertSubjectStep now bid)
            (b.authors.foldl (insertAuthorStep now bid) s1))
         else
          { (b.subjects.foldl (insertSubjectStep now bid)
              (b.authors.foldl (insertAuthorStep now bid) s1)) with
            formats :=
              ((b.subjects.foldl (insertSubjectStep now bid)
                (b.authors.foldl (insertAuthorStep now bid) s1))).formats.filter
                fun r => decide (r.bookID ≠ bid) })).bookshelves := by
  unfold insertBookRest
  rw [foldl_preserves (fun st => st.bookshelves) (insertFormatStep bid)
    (fun st f => fmtStep_bookshelves bid st f) b.formats]

/-- Presence only depends on the authors table. -/
theorem authorPresent_congr (s t : Store) (a : Author) (h : s.authors = t.authors)
    (hp : authorPresent s a) : authorPresent t a := by
  rcases hp with ⟨r, hr, hm⟩
  exact ⟨r, h ▸ hr, hm⟩

theorem subjPresent_congr (s t : Store) (v : String) (h : s.subjects = t.subjects)
    (hp : subjPresent s v) : subjPresent t v := by
  rcases hp with ⟨r, hr, hm⟩
  exact ⟨r, h ▸ hr, hm⟩

theorem shelfPresent_congr (s t : Store) (v : String) (h : s.bookshelves = t.bookshelves)
    (hp : shelfPresent s v) : shelfPresent t v := by
  rcases hp with ⟨r, hr, hm⟩
  exact ⟨r, h ▸ hr, hm⟩

theorem bookPresent_congr (s t : Store) (gid : String) (h : s.books = t.books)
    (hp : bookPresent s gid) : bookPresent t gid := by
  rcases hp with ⟨r, hr, hm⟩
  exact ⟨r, h ▸ hr, hm⟩

/-- Content of the owned formats after the format-insert loop: whatever was
owned before, followed by exactly the incoming formats. -/
theorem fmtFold_owned (bid : Nat) (fs : List Format) (t : Store) :
    ((fs.foldl (insertFormatStep bid) t).formats.filter fun r => decide (r.bookID = bid)).map fmtContent =
      ((t.formats.filter fun r => decide (r.bookID = bid)).map fmtContent) ++ fs.map fContent := by
  induction fs generalizing t with
  | nil => simp
  | cons f fs ih =>
    rw [List.foldl_cons, ih]
    simp [insertFormatStep, List.filter_append, fmtContent, fContent]

/-- Rows kept by the delete have a different owner, so none survives the
owner filter. -/
theorem filter_filter_ne (bid : Nat) (l : List FormatRow) :
    ((l.filter fun r => decide (r.bookID ≠ bid)).filter fun r => decide (r.bookID = bid)) = [] := by
  induction l with
  | nil => rfl
  | cons r rs ih =>
    by_cases hr : r.bookID = bid
    · simp [List.filter_cons, hr, ih]
    · simp [List.filter_cons, hr, ih]

/-- With no incoming formats the residual phases leave the formats table
untouched. -/
theorem rest_formats_empty (now : Nat) (b : Book) (bid : Nat) (s1 : Store)
    (h : b.formats = []) : (insertBookRest now b bid s1).formats = s1.formats := by
  simp only [insertBookRest, h, List.foldl_nil, List.isEmpty_nil, if_true]
  rw [foldl_preserves (fun st => st.formats) (insertBookshelfStep now bid)
    (fun st v => shelfStep_formats now bid st v) b.bookshelves]
  rw [foldl_preserves (fun st => st.formats) (insertSubjectStep now bid)
    (fun st v => subjStep_formats now bid st v) b.subjects]
  rw [foldl_preserves (fun st => st.formats) (insertAuthorStep now bid)
    (fun st a => authorStep_formats now bid st a) b.authors]

/-- With a non-empty incoming format list the residual phases leave the book
owning exactly the incoming formats. -/
theorem rest_owned (now : Nat) (b : Book) (bid : Nat) (s1 : Store)
    (h : ¬ b.formats.isEmpty = true) :
    ((insertBookRest now b bid s1).formats.filter fun r => decide (r.bookID = bid)).map fmtContent =
      b.formats.map fContent := by
  simp only [insertBookRest]
  rw [fmtFold_owned]
  rw [foldl_preserves (fun st => st.formats) (insertBookshelfStep now bid)
    (fun st v => shelfStep_formats now bid st v) b.bookshelves]
  rw [if_neg h]
  simp [filter_filter_ne]

/-- `InsertBook` leaves the store with the key mapped to the id it used. -/
theorem bookIdOf_insertBookOk (now : Nat) (s : Store) (b : Book) :
    bookIdOf (insertBookOk now s b) b.gutenbergID = some (theBid now s b) := by
  unfold bookIdOf
  rw [insertBookOk_eq, rest_books]
  unfold theBid
  cases hfind : (upsertBookStep now b s).books.find? (bookRowMatches b.gutenbergID) with
  | some r => rfl
  | none =>
    exfalso
    have h2 := upsert_find_isSome now b s
    rw [hfind] at h2
    exact Bool.noConfusion h2

/-- When the key already has an id, `InsertBook` works with exactly that id. -/
theorem theBid_of_present (now : Nat) (s : Store) (b : Book) (i : Nat)
    (h : bookIdOf s b.gutenbergID = some i) : theBid now s b = i := by
  rw [theBid_eq]
  unfold bookIdOf at h
  cases hfind : s.books.find? (bookRowMatches b.gutenbergID) with
  | some r =>
    rw [hfind] at h
    simp only [Option.map_some'] at h
    exact Option.some.inj h
  | none =>
    rw [hfind] at h
    exact absurd h (by simp)

/-! ## Theorems: store claims -/

/-- C4 (confirmed): a non-empty incoming format list replaces the book's
format rows wholesale with exactly the incoming formats; an empty incoming
list leaves the formats table entirely unchanged. -/
theorem format_snapshot_replacement (now : Nat) (s : Store) (b : Book) (bid : Nat)
    (hbid : bookIdOf (insertBookOk now s b) b.gutenbergID = some bid) :
    (b.formats ≠ [] →
        (ownedFormats (insertBookOk now s b) bid).map fmtContent = b.formats.map fContent) ∧
      (b.formats = [] → (insertBookOk now s b).formats = s.formats) := by
  have hb : bid = theBid now s b := by
    rw [bookIdOf_insertBookOk] at hbid
    exact (Option.some.inj hbid).symm
  subst hb
  constructor
  · intro hne
    unfold ownedFormats
    rw [insertBookOk_eq]
    exact rest_owned now b _ _ (by simpa [List.isEmpty_iff] using hne)
  · intro hempty
    rw [insertBookOk_eq, rest_formats_empty now b _ _ hempty, upsert_formats]

/-- Witness for the format snapshot at concrete books, with and without
incoming formats. -/
theorem format_snapshot_replacement_witness :
    (bookIdOf (insertBookOk 0 emptyStore bk1) bk1.gutenbergID = some 1 ∧ bk1.formats ≠ [] ∧
        (ownedFormats (insertBookOk 0 emptyStore bk1) 1).map fmtContent = bk1.formats.map fContent) ∧
      (bkNoFmt.formats = [] ∧ (insertBookOk 0 emptyStore bkNoFmt).formats = emptyStore.formats) :=
  ⟨⟨by decide, by decide,
      (format_snapshot_replacement 0 emptyStore bk1 1 (by decide)).1 (by decide)⟩,
    ⟨rfl, (format_snapshot_replacement 0 emptyStore bkNoFmt 1 (by decide)).2 rfl⟩⟩

/-- C3 (corrected): on an identity conflict the author backfill is
incoming-wins-unless-empty: each scalar sub-field becomes the incoming value
when that value is non-empty (even over a non-empty stored value) and keeps
the stored value when the incoming value is empty; the identity columns, the
id and the row count are unchanged. -/
theorem author_backfill_incoming_wins (now bid : Nat) (s : Store) (a : Author) (r : AuthorRow)
    (h : s.authors.find? (fun x => authorMatches x a) = some r) :
    (insertAuthorStep now bid s a).authors.find? (fun x => authorMatches x a) =
        some (backfillAuthor a r) ∧
      backfillAuthor a r =
        { r with
          firstName := if a.firstName = "" then r.firstName else a.firstName
          lastName := if a.lastName = "" then r.lastName else a.lastName
          agentID := if a.agentID = "" then r.agentID else a.agentID
          aliasStr := if a.aliasStr = "" then r.aliasStr else a.aliasStr
          webpage := if a.webpage = "" then r.webpage else a.webpage } ∧
      (insertAuthorStep now bid s a).authors.length = s.authors.length := by
  refine ⟨?_, rfl, ?_⟩
  · rw [authorStep_authors_found now bid s a r h,
      find?_updateFirst _ _ (fun x => backfill_matches a a x) s.authors, h]
    rfl
  · rw [authorStep_authors_found now bid s a r h]
    exact updateFirst_length _ _ _

/-- Witness for the backfill characterisation at a concrete conflict. -/
theorem author_backfill_incoming_wins_witness :
    store0.authors.find? (fun x => authorMatches x aIn0) = some aRow0 ∧
      (insertAuthorStep 7 1 store0 aIn0).authors.length = store0.authors.length :=
  ⟨by decide, (author_backfill_incoming_wins 7 1 store0 aIn0 aRow0 (by decide)).2.2⟩

/-- C3 counterexample: a stored non-empty alias "A" is overwritten by the
incoming different non-empty alias "B" during the upsert, which the claimed
fill-empty-only policy forbids. -/
theorem author_backfill_counterexample :
    aRow0.aliasStr = "A" ∧ aIn0.aliasStr = "B" ∧
      ((insertBookOk 7 store0 bk3).authors.map fun r => r.aliasStr) = ["B"] ∧
      ("B" : String) ≠ "A" := by
  refine ⟨rfl, rfl, by decide, by decide⟩

/-- Every incoming author identity is present after the residual phases. -/
theorem rest_authorPresent (now : Nat) (b : Book) (bid : Nat) (s1 : Store) (a : Author)
    (ha : a ∈ b.authors) : authorPresent (insertBookRest now b bid s1) a := by
  apply authorPresent_congr _ _ a (rest_authors now b bid s1).symm
  exact authorFold_present_all now bid b.authors s1 a ha

/-- Every incoming subject is present after the residual phases. -/
theorem rest_subjPresent (now : Nat) (b : Book) (bid : Nat) (s1 : Store) (v : String)
    (hv : v ∈ b.subjects) : subjPresent (insertBookRest now b bid s1) v := by
  apply subjPresent_congr _ _ v (rest_subjects now b bid s1).symm
  exact subjFold_present_all now bid b.subjects _ v hv

/-- Every incoming bookshelf is present after the residual phases. -/
theorem rest_shelfPresent (now : Nat) (b : Book) (bid : Nat) (s1 : Store) (v : String)
    (hv : v ∈ b.bookshelves) : shelfPresent (insertBookRest now b bid s1) v := by
  simp only [insertBookRest]
  apply shelfPresent_congr _ _ v
    (foldl_preserves (fun st => st.bookshelves) (insertFormatStep bid)
      (fun st f => fmtStep_bookshelves bid st f) b.formats _).symm
  exact shelfFold_present_all now bid b.bookshelves _ v hv

/-- The residual phases add no author rows when every incoming identity is
already present. -/
theorem rest_authors_length (now : Nat) (b : Book) (bid : Nat) (s1 : Store)
    (h : ∀ a ∈ b.authors, authorPresent s1 a) :
    (insertBookRest now b bid s1).authors.length = s1.authors.length := by
  rw [rest_authors]
  exact authorFold_length now bid b.authors s1 h

/-- The residual phases add no subject rows when every incoming subject is
already present. -/
theorem rest_subjects_length (now : Nat) (b : Book) (bid : Nat) (s1 : Store)
    (h : ∀ v ∈ b.subjects, subjPresent s1 v) :
    (insertBookRest now b bid s1).subjects.length = s1.subjects.length := by
  rw [rest_subjects]
  have hA := foldl_preserves (fun st => st.subjects) (insertAuthorStep now bid)
    (fun st a => authorStep_subjects now bid st a) b.authors s1
  rw [subjFold_length now bid b.subjects _
    (fun v hv => subjPresent_congr s1 _ v hA.symm (h v hv))]
  rw [hA]

/-- The residual phases add no bookshelf rows when every incoming bookshelf
is already present. -/
theorem rest_bookshelves_length (now : Nat) (b : Book) (bid : Nat) (s1 : Store)
    (h : ∀ v ∈ b.bookshelves, shelfPresent s1 v) :
    (insertBookRest now b bid s1).bookshelves.length = s1.bookshelves.length := by
  have hA := foldl_preserves (fun st => st.bookshelves) (insertAuthorStep now bid)
    (fun st a => authorStep_bookshelves now bid st a) b.authors s1
  have hS := foldl_preserves (fun st => st.bookshelves) (insertSubjectStep now bid)
    (fun st v => subjStep_bookshelves now bid st v) b.subjects
    (b.authors.foldl (insertAuthorStep now bid) s1)
  simp only [insertBookRest]
  rw [foldl_preserves (fun st => st.bookshelves) (insertFormatStep bid)
    (fun st f => fmtStep_bookshelves bid st f) b.formats]
  generalize hT : (b.subjects.foldl (insertSubjectStep now bid)
    (b.authors.foldl (insertAuthorStep now bid) s1)) = T
  rw [hT] at hS
  have hTb : T.bookshelves = s1.bookshelves := hS.trans hA
  have hXb : (if b.formats.isEmpty = true then T
      else { T with formats := T.formats.filter fun r => decide (r.bookID ≠ bid) }).bookshelves
      = s1.bookshelves := by
    split
    · exact hTb
    · exact hTb
  rw [shelfFold_length now bid b.bookshelves _
    (fun v hv => shelfPresent_congr s1 _ v hXb.symm (h v hv))]
  rw [hXb]

/-- C1 (confirmed): repeating the upsert of one record leaves the books,
authors, subjects and bookshelves row counts unchanged and the content of
the record's owned format rows unchanged. -/
theorem insertBook_idempotent (n1 n2 : Nat) (s : Store) (b : Book) (s1 s2 : Store)
    (h1 : s1 = insertBookOk n1 s b) (h2 : s2 = insertBookOk n2 s1 b)
    (hgid : b.gutenbergID ≠ "") :
    s2.books.length = s1.books.length ∧
      s2.authors.length = s1.authors.length ∧
      s2.subjects.length = s1.subjects.length ∧
      s2.bookshelves.length = s1.bookshelves.length ∧
      ∀ bid, bookIdOf s1 b.gutenbergID = some bid →
        (ownedFormats s2 bid).map fmtContent = (ownedFormats s1 bid).map fmtContent := by
  subst h2
  subst h1
  have hbp1 : bookPresent (insertBookOk n1 s b) b.gutenbergID := by
    have heq : (upsertBookStep n1 b s).books = (insertBookOk n1 s b).books := by
      rw [insertBookOk_eq, rest_books]
    exact bookPresent_congr _ _ _ heq (upsert_present n1 b s)
  have hap1 : ∀ a ∈ b.authors, authorPresent (insertBookOk n1 s b) a := by
    intro a ha
    rw [insertBookOk_eq]
    exact rest_authorPresent n1 b _ _ a ha
  have hsp1 : ∀ v ∈ b.subjects, subjPresent (insertBookOk n1 s b) v := by
    intro v hv
    rw [insertBookOk_eq]
    exact rest_subjPresent n1 b _ _ v hv
  have hshp1 : ∀ v ∈ b.bookshelves, shelfPresent (insertBookOk n1 s b) v := by
    intro v hv
    rw [insertBookOk_eq]
    exact rest_shelfPresent n1 b _ _ v hv
  refine ⟨?_, ?_, ?_, ?_, ?_⟩
  · rw [insertBookOk_eq n2, rest_books]
    exact upsert_length n2 b _ hbp1
  · have hpres : ∀ a ∈ b.authors,
        authorPresent (upsertBookStep n2 b (insertBookOk n1 s b)) a :=
      fun a ha => authorPresent_congr _ _ a (upsert_authors n2 b _).symm (hap1 a ha)
    rw [insertBookOk_eq n2, rest_authors_length n2 b _ _ hpres, upsert_authors]
  · have hpres : ∀ v ∈ b.subjects,
        subjPresent (upsertBookStep n2 b (insertBookOk n1 s b)) v :=
      fun v hv => subjPresent_congr _ _ v (upsert_subjects n2 b _).symm (hsp1 v hv)
    rw [insertBookOk_eq n2, rest_subjects_length n2 b _ _ hpres, upsert_subjects]
  · have hpres : ∀ v ∈ b.bookshelves,
        shelfPresent (upsertBookStep n2 b (insertBookOk n1 s b)) v :=
      fun v hv => shelfPresent_congr _ _ v (upsert_bookshelves n2 b _).symm (hshp1 v hv)
    rw [insertBookOk_eq n2, rest_bookshelves_length n2 b _ _ hpres, upsert_bookshelves]
  · intro bid hbid
    by_cases hf : b.formats = []
    · have hfe : (insertBookOk n2 (insertBookOk n1 s b) b).formats = (insertBookOk n1 s b).formats := by
        rw [insertBookOk_eq n2, rest_formats_empty n2 b _ _ hf, upsert_formats]
      unfold ownedFormats
      rw [hfe]
    · have hbid1 : bid = theBid n1 s b := by
        rw [bookIdOf_insertBookOk] at hbid
        exact (Option.some.inj hbid).symm
      have hne : ¬ b.formats.isEmpty = true := by
        simpa [List.isEmpty_iff] using hf
      have h1own : (ownedFormats (insertBookOk n1 s b) bid).map fmtContent = b.formats.map fContent := by
        unfold ownedFormats
        rw [hbid1, insertBookOk_eq n1]
        exact rest_owned n1 b _ _ hne
      have hbid2 : theBid n2 (insertBookOk n1 s b) b = bid :=
        theBid_of_present n2 _ b bid hbid
      have h2own : (ownedFormats (insertBookOk n2 (insertBookOk n1 s b) b) bid).map fmtContent =
          b.formats.map fContent := by
        unfold ownedFormats
        rw [← hbid2, insertBookOk_eq n2]
        exact rest_owned n2 b _ _ hne
      rw [h2own, h1own]

/-- Witness for the idempotent upsert at a concrete book and empty store. -/
theorem insertBook_idempotent_witness :
    bk1.gutenbergID ≠ "" ∧
      (insertBookOk 1 (insertBookOk 0 emptyStore bk1) bk1).books.length =
        (insertBookOk 0 emptyStore bk1).books.length :=
  ⟨by decide, (insertBook_idempotent 0 1 emptyStore bk1 _ _ rfl rfl (by decide)).1⟩

/-! ## Theorems: transactional agreement and atomicity -/

theorem agrees_pure {α : Type} (a : α) : Agrees (txPure a) fun s => (a, s) :=
  fun n _ => Or.inr ⟨n, rfl⟩

theorem agrees_fail {α : Type} (msg : String) (g : Store → α × Store) :
    Agrees (txFail msg) g :=
  fun _ _ => Or.inl ⟨msg, rfl⟩

theorem agrees_execRet {α : Type} (failAt : Nat → Bool) (msg : String) (f : Store → α × Store) :
    Agrees (txExecRet failAt msg f) f := by
  intro n s
  by_cases hf : failAt n
  · exact Or.inl ⟨msg, by unfold txExecRet; rw [if_pos hf]⟩
  · exact Or.inr ⟨n + 1, by unfold txExecRet; rw [if_neg hf]⟩

theorem agrees_exec (failAt : Nat → Bool) (msg : String) (f : Store → Store) :
    Agrees (txExec failAt msg f) fun s => ((), f s) :=
  agrees_execRet failAt msg _

theorem agrees_query {α : Type} (failAt : Nat → Bool) (msg : String) (q : Store → α) :
    Agrees (txQuery failAt msg q) fun s => (q s, s) :=
  agrees_execRet failAt msg _

theorem agrees_bind {α β : Type} {m : TxM α} {k : α → TxM β} {g : Store → α × Store}
    {h : α → Store → β × Store} (hm : Agrees m g) (hk : ∀ a, Agrees (k a) (h a)) :
    Agrees (txBind m k) fun s => h (g s).1 (g s).2 := by
  intro n s
  rcases hm n s with ⟨e, he⟩ | ⟨n', hok⟩
  · exact Or.inl ⟨e, by unfold txBind; rw [he]⟩
  · rcases hk (g s).1 n' (g s).2 with ⟨e, he⟩ | ⟨n'', hok2⟩
    · exact Or.inl ⟨e, by unfold txBind; rw [hok]; exact he⟩
    · exact Or.inr ⟨n'', by unfold txBind; rw [hok]; exact hok2⟩

theorem agrees_congr {α : Type} {m : TxM α} {g g' : Store → α × Store}
    (h : ∀ s, g s = g' s) (hm : Agrees m g) : Agrees m g' := by
  intro n s
  rcases hm n s with he | ⟨n', hok⟩
  · exact Or.inl he
  · exact Or.inr ⟨n', by rw [← h s]; exact hok⟩

theorem agrees_authorStep (failAt : Nat → Bool) (now bid : Nat) (a : Author) :
    Agrees (txAuthorStep failAt now bid a) fun s => ((), insertAuthorStep now bid s a) := by
  have hk : ∀ found : Option AuthorRow,
      Agrees
        (match found with
          | some row =>
            txBind (txExec failAt "failed to update author" fun s =>
                { s with authors := updateFirst (fun r => authorMatches r a) (backfillAuthor a) s.authors })
              fun _ => txExec failAt "failed to link author" fun s => linkAuthor s bid row.id
          | none =>
            txBind (txExecRet failAt "failed to insert author" fun s =>
                (s.nextAuthorId,
                  { s with
                    authors := s.authors ++ [newAuthorRow now s.nextAuthorId a]
                    nextAuthorId := s.nextAuthorId + 1 }))
              fun aid => txExec failAt "failed to link author" fun s => linkAuthor s bid aid)
        (fun s =>
          ((), match found with
            | some row =>
              linkAuthor
                { s with authors := updateFirst (fun r => authorMatches r a) (backfillAuthor a) s.authors }
                bid row.id
            | none =>
              linkAuthor
                { s with
                  authors := s.authors ++ [newAuthorRow now s.nextAuthorId a]
                  nextAuthorId := s.nextAuthorId + 1 }
                bid s.nextAuthorId)) := by
    intro found
    cases found with
    | some row =>
      exact agrees_bind (agrees_exec failAt _ _) fun _ => agrees_exec failAt _ _
    | none =>
      exact agrees_bind (agrees_execRet failAt _ _) fun aid => agrees_exec failAt _ _
  apply agrees_congr ?hg
    (agrees_bind
      (h := fun found s =>
        ((), match found with
          | some row =>
            linkAuthor
              { s with authors := updateFirst (fun r => authorMatches r a) (backfillAuthor a) s.authors }
              bid row.id
          | none =>
            linkAuthor
              { s with
                authors := s.authors ++ [newAuthorRow now s.nextAuthorId a]
                nextAuthorId := s.nextAuthorId + 1 }
              bid s.nextAuthorId))
      (agrees_query failAt "failed to query author"
        fun s => s.authors.find? fun r => authorMatches r a) hk)
  intro s
  cases hf : s.authors.find? (fun r => authorMatches r a) with
  | some row => simp [insertAuthorStep, hf]
  | none => simp [insertAuthorStep, hf]

theorem agrees_authorLoop (failAt : Nat → Bool) (now bid : Nat) (as : List Author) :
    Agrees (txAuthorLoop failAt now bid as) fun s => ((), as.foldl (insertAuthorStep now bid) s) := by
  induction as with
  | nil => exact agrees_pure ()
  | cons x xs ih =>
    exact agrees_bind (agrees_authorStep failAt now bid x) fun _ => ih

theorem agrees_subjectStep (failAt : Nat → Bool) (now bid : Nat) (v : String) :
    Agrees (txSubjectStep failAt now bid v) fun s => ((), insertSubjectStep now bid s v) := by
  have hk : ∀ found : Option SubjectRow,
      Agrees
        (match found with
          | some row => txExec failAt "failed to link subject" fun s => linkSubject s bid row.id
          | none =>
            txBind (txExecRet failAt "failed to insert subject" fun s =>
                (s.nextSubjectId,
                  { s with
                    subjects := s.subjects ++ [⟨s.nextSubjectId, v, now⟩]
                    nextSubjectId := s.nextSubjectId + 1 }))
              fun sid => txExec failAt "failed to link subject" fun s => linkSubject s bid sid)
        (fun s =>
          ((), match found with
            | some row => linkSubject s bid row.id
            | none =>
              linkSubject
                { s with
                  subjects := s.subjects ++ [⟨s.nextSubjectId, v, now⟩]
                  nextSubjectId := s.nextSubjectId + 1 }
                bid s.nextSubjectId)) := by
    intro found
    cases found with
    | some row => exact agrees_exec failAt _ _
    | none => exact agrees_bind (agrees_execRet failAt _ _) fun sid => agrees_exec failAt _ _
  apply agrees_congr ?hg
    (agrees_bind
      (h := fun found s =>
        ((), match found with
          | some row => linkSubject s bid row.id
          | none =>
            linkSubject
              { s with
                subjects := s.subjects ++ [⟨s.nextSubjectId, v, now⟩]
                nextSubjectId := s.nextSubjectId + 1 }
              bid s.nextSubjectId))
      (agrees_query failAt "failed to query subject"
        fun s => s.subjects.find? (subjRowMatches v)) hk)
  intro s
  cases hf : s.subjects.find? (subjRowMatches v) with
  | some row => simp [insertSubjectStep, hf]
  | none => simp [insertSubjectStep, hf]

theorem agrees_subjectLoop (failAt : Nat → Bool) (now bid : Nat) (vs : List String) :
    Agrees (txSubjectLoop failAt now bid vs) fun s => ((), vs.foldl (insertSubjectStep now bid) s) := by
  induction vs with
  | nil => exact agrees_pure ()
  | cons x xs ih =>
    exact agrees_bind (agrees_subjectStep failAt now bid x) fun _ => ih

theorem agrees_bookshelfStep (failAt : Nat → Bool) (now bid : Nat) (v : String) :
    Agrees (txBookshelfStep failAt now bid v) fun s => ((), insertBookshelfStep now bid s v) := by
  have hk : ∀ found : Option BookshelfRow,
      Agrees
        (match found with
          | some row => txExec failAt "failed to link bookshelf" fun s => linkBookshelf s bid row.id
          | none =>
            txBind (txExecRet failAt "failed to insert bookshelf" fun s =>
                (s.nextBookshelfId,
                  { s with
                    bookshelves := s.bookshelves ++ [⟨s.nextBookshelfId, v, now⟩]
                    nextBookshelfId := s.nextBookshelfId + 1 }))
              fun shid => txExec failAt "failed to link bookshelf" fun s => linkBookshelf s bid shid)
        (fun s =>
          ((), match found with
            | some row => linkBookshelf s bid row.id
            | none =>
              linkBookshelf
                { s with
                  bookshelves := s.bookshelves ++ [⟨s.nextBookshelfId, v, now⟩]
                  nextBookshelfId := s.nextBookshelfId + 1 }
                bid s.nextBookshelfId)) := by
    intro found
    cases found with
    | some row => exact agrees_exec failAt _ _
    | none => exact agrees_bind (agrees_execRet failAt _ _) fun shid => agrees_exec failAt _ _
  apply agrees_congr ?hg
    (agrees_bind
      (h := fun found s =>
        ((), match found with
          | some row => linkBookshelf s bid row.id
          | none =>
            linkBookshelf
              { s with
                bookshelves := s.bookshelves ++ [⟨s.nextBookshelfId, v, now⟩]
                nextBookshelfId := s.nextBookshelfId + 1 }
              bid s.nextBookshelfId))
      (agrees_query failAt "failed to query bookshelf"
        fun s => s.bookshelves.find? (shelfRowMatches v)) hk)
  intro s
  cases hf : s.bookshelves.find? (shelfRowMatches v) with
  | some row => simp [insertBookshelfStep, hf]
  | none => simp [insertBookshelfStep, hf]

theorem agrees_bookshelfLoop (failAt : Nat → Bool) (now bid : Nat) (vs : List String) :
    Agrees (txBookshelfLoop failAt now bid vs) fun s => ((), vs.foldl (insertBookshelfStep now bid) s) := by
  induction vs with
  | nil => exact agrees_pure ()
  | cons x xs ih =>
    exact agrees_bind (agrees_bookshelfStep failAt now bid x) fun _ => ih

theorem agrees_formatLoop (failAt : Nat → Bool) (bid : Nat) (fs : List Format) :
    Agrees (txFormatLoop failAt bid fs) fun s => ((), fs.foldl (insertFormatStep bid) s) := by
  induction fs with
  | nil => exact agrees_pure ()
  | cons f fs ih =>
    exact agrees_bind (agrees_exec failAt _ _) fun _ => ih

theorem agrees_formatDelete (failAt : Nat → Bool) (b : Book) (bid : Nat) :
    Agrees (txFormatDelete failAt b bid) fun s =>
      ((), if b.formats.isEmpty then s
        else { s with formats := s.formats.filter fun r => decide (r.bookID ≠ bid) }) := by
  unfold txFormatDelete
  by_cases hf : b.formats.isEmpty
  · rw [if_pos hf]
    simp only [if_pos hf]
    exact agrees_pure ()
  · rw [if_neg hf]
    simp only [if_neg hf]
    exact agrees_exec failAt _ _

theorem agrees_insertBody (failAt : Nat → Bool) (now : Nat) (b : Book) :
    Agrees (txInsertBody failAt now b) fun s => ((), insertBookOk now s b) := by
  have hrest : ∀ bid : Nat,
      Agrees
        (txBind (txAuthorLoop failAt now bid b.authors) fun _ =>
          txBind (txSubjectLoop failAt now bid b.subjects) fun _ =>
          txBind (txFormatDelete failAt b bid) fun _ =>
          txBind (txBookshelfLoop failAt now bid b.bookshelves) fun _ =>
          txFormatLoop failAt bid b.formats)
        (fun s => ((), insertBookRest now b bid s)) := by
    intro bid
    have hc := agrees_bind (agrees_authorLoop failAt now bid b.authors) fun _ =>
      agrees_bind (agrees_subjectLoop failAt now bid b.subjects) fun _ =>
      agrees_bind (agrees_formatDelete failAt b bid) fun _ =>
      agrees_bind (agrees_bookshelfLoop failAt now bid b.bookshelves) fun _ =>
      agrees_formatLoop failAt bid b.formats
    exact agrees_congr (fun s => rfl) hc
  have hk : ∀ idOpt : Option Nat,
      Agrees
        (match idOpt with
          | none => (txFail "failed to get book ID" : TxM Unit)
          | some bid =>
            txBind (txAuthorLoop failAt now bid b.authors) fun _ =>
            txBind (txSubjectLoop failAt now bid b.subjects) fun _ =>
            txBind (txFormatDelete failAt b bid) fun _ =>
            txBind (txBookshelfLoop failAt now bid b.bookshelves) fun _ =>
            txFormatLoop failAt bid b.formats)
        (fun s =>
          ((), match idOpt with
            | none => s
            | some bid => insertBookRest now b bid s)) := by
    intro idOpt
    cases idOpt with
    | none => exact agrees_fail _ _
    | some bid => exact hrest bid
  have hc := agrees_bind (agrees_exec failAt "failed to begin transaction" fun s => s) fun _ =>
    agrees_bind (agrees_exec failAt "failed to insert book" (upsertBookStep now b)) fun _ =>
    agrees_bind
      (h := fun idOpt s =>
        ((), match idOpt with
          | none => s
          | some bid => insertBookRest now b bid s))
      (agrees_query failAt "failed to get book ID" fun s => bookIdOf s b.gutenbergID) hk
  refine agrees_congr ?_ hc
  intro s
  show ((),
      match bookIdOf (upsertBookStep now b s) b.gutenbergID with
      | none => upsertBookStep now b s
      | some bid => insertBookRest now b bid (upsertBookStep now b s)) =
    ((), insertBookOk now s b)
  cases hf : (upsertBookStep now b s).books.find? (bookRowMatches b.gutenbergID) with
  | some r => simp [insertBookOk, bookIdOf, hf]
  | none => simp [insertBookOk, bookIdOf, hf]

/-- C2 (confirmed): `InsertBook` is atomic.  Whatever statements the driver
fails, the call either returns the error with the committed store rolled back
to exactly the pre-call store, or commits with the committed store exactly
the full pure upsert — no partially applied transaction is ever committed. -/
theorem insertBook_atomic (failAt : Nat → Bool) (now : Nat) (s : Store) (b : Book) :
    (∃ e, insertBookTx failAt now s b = Except.error e ∧
        committedAfter (insertBookTx failAt now s b) s = s) ∨
      (insertBookTx failAt now s b = Except.ok (insertBookOk now s b) ∧
        committedAfter (insertBookTx failAt now s b) s = insertBookOk now s b) := by
  rcases agrees_insertBody failAt now b 0 s with ⟨e, he⟩ | ⟨n', hok⟩
  · left
    have hres : insertBookTx failAt now s b = Except.error e := by
      unfold insertBookTx
      rw [he]
    exact ⟨e, hres, by rw [hres]; rfl⟩
  · have hstep : insertBookTx failAt now s b =
        if failAt n' = true then Except.error "failed to commit transaction"
        else Except.ok (insertBookOk now s b) := by
      unfold insertBookTx
      rw [hok]
    by_cases hc : failAt n'
    · left
      have hres : insertBookTx failAt now s b = Except.error "failed to commit transaction" := by
        rw [hstep, if_pos hc]
      exact ⟨_, hres, by rw [hres]; rfl⟩
    · right
      have hres : insertBookTx failAt now s b = Except.ok (insertBookOk now s b) := by
        rw [hstep, if_neg hc]
      exact ⟨hres, by rw [hres]; rfl⟩

/-! ## Theorems: BatchInsertBooks -/

/-- With a positive batch size and enough fuel, the chunked loop is the plain
fold of the error-swallowing insert over the remaining books. -/
theorem batchGo_eq (ins : Store → Book → Except String Store) (books : List Book)
    (batchSize : Nat) (hbs : 0 < batchSize) :
    ∀ fuel i s, books.length - i ≤ fuel →
      batchGo ins books batchSize fuel i s = (books.drop i).foldl (tryIns ins) s := by
  intro fuel
  induction fuel with
  | zero =>
    intro i s hfuel
    have hi : books.length ≤ i := by omega
    rw [List.drop_eq_nil_of_le hi]
    rfl
  | succ fuel ih =>
    intro i s hfuel
    by_cases hi : i < books.length
    · show (if i < books.length then _ else s) = _
      rw [if_pos hi, ih (i + batchSize) _ (by omega)]
      have h3 : (books.drop i).drop batchSize = books.drop (i + batchSize) := List.drop_drop ..
      rw [← h3, ← List.foldl_append, List.take_append_drop]
    · show (if i < books.length then _ else s) = _
      rw [if_neg hi, List.drop_eq_nil_of_le (by omega)]
      rfl

/-- C9 (confirmed): for every insert routine, store, book list and positive
batch size, `BatchInsertBooks` returns `nil`, and the store walked through
every book with each per-book failure swallowed. -/
theorem batch_insert_never_errors (ins : Store → Book → Except String Store) (s : Store)
    (books : List Book) (batchSize : Nat) (hbs : 0 < batchSize) :
    BatchInsertBooks ins s books batchSize = Except.ok (books.foldl (tryIns ins) s) := by
  unfold BatchInsertBooks
  rw [batchGo_eq ins books batchSize hbs (books.length + 1) 0 s (by omega), List.drop_zero]

/-- Witness: an insert routine that always fails still yields `nil` and an
unchanged store. -/
theorem batch_insert_never_errors_witness :
    0 < 1 ∧
      BatchInsertBooks insAlwaysFail emptyStore [bk1] 1 =
        Except.ok ([bk1].foldl (tryIns insAlwaysFail) emptyStore) :=
  ⟨by decide, batch_insert_never_errors insAlwaysFail emptyStore [bk1] 1 (by decide)⟩

/-! ## Theorems: import worker accounting -/

/-- A counter that each step increments by one grows by the list length. -/
theorem foldl_count {β α : Type} (g : β → Nat) (step : β → α → β)
    (h : ∀ s a, g (step s a) = g s + 1) (l : List α) (s : β) :
    g (l.foldl step s) = g s + l.length := by
  induction l generalizing s with
  | nil => rfl
  | cons x xs ih =>
    rw [List.foldl_cons, ih, h, List.length_cons]
    omega

/-- One batched insert records exactly one outcome, which is a success or a
failure, and leaves the buffer and the skip counter alone. -/
theorem insertOne_stats (cfg : WCfg) (σ : WState) (bk : Book) :
    (insertOne cfg σ bk).stats.processed = σ.stats.processed + 1 ∧
      (insertOne cfg σ bk).stats.successful + (insertOne cfg σ bk).stats.failed =
        σ.stats.successful + σ.stats.failed + 1 ∧
      (insertOne cfg σ bk).stats.skipped = σ.stats.skipped ∧
      (insertOne cfg σ bk).batch = σ.batch := by
  unfold insertOne
  cases insertBookTx (cfg.fail σ.calls) cfg.now σ.store bk with
  | ok s' => exact ⟨rfl, by simp [recordSuccess]; omega, rfl, rfl⟩
  | error e => exact ⟨rfl, by simp [recordFailure]; omega, rfl, rfl⟩

theorem insertOne_balanced (cfg : WCfg) (σ : WState) (bk : Book)
    (h : σ.stats.processed = σ.stats.successful + σ.stats.failed + σ.stats.skipped) :
    (insertOne cfg σ bk).stats.processed =
      (insertOne cfg σ bk).stats.successful + (insertOne cfg σ bk).stats.failed +
        (insertOne cfg σ bk).stats.skipped := by
  rcases insertOne_stats cfg σ bk with ⟨h1, h2, h3, _⟩
  omega

theorem insertBatchW_processed (cfg : WCfg) (σ : WState) :
    (insertBatchW cfg σ).stats.processed = σ.stats.processed + σ.batch.length := by
  unfold insertBatchW
  exact foldl_count (fun τ => τ.stats.processed) (insertOne cfg)
    (fun τ bk => (insertOne_stats cfg τ bk).1) σ.batch _

theorem insertBatchW_batch (cfg : WCfg) (σ : WState) :
    (insertBatchW cfg σ).batch = [] := by
  unfold insertBatchW
  rw [foldl_preserves (fun τ => τ.batch) (insertOne cfg)
    (fun τ bk => (insertOne_stats cfg τ bk).2.2.2) σ.batch]

theorem insertBatchW_skipped (cfg : WCfg) (σ : WState) :
    (insertBatchW cfg σ).stats.skipped = σ.stats.skipped := by
  unfold insertBatchW
  rw [foldl_preserves (fun τ => τ.stats.skipped) (insertOne cfg)
    (fun τ bk => (insertOne_stats cfg τ bk).2.2.1) σ.batch]

theorem insertBatchW_balanced (cfg : WCfg) (σ : WState)
    (h : σ.stats.processed = σ.stats.successful + σ.stats.failed + σ.stats.skipped) :
    (insertBatchW cfg σ).stats.processed =
      (insertBatchW cfg σ).stats.successful + (insertBatchW cfg σ).stats.failed +
        (insertBatchW cfg σ).stats.skipped := by
  unfold insertBatchW
  exact foldl_pred
    (fun τ => τ.stats.processed = τ.stats.successful + τ.stats.failed + τ.stats.skipped)
    (insertOne cfg) (fun τ bk hτ => insertOne_balanced cfg τ bk hτ) σ.batch
    { σ with batch := [] } h

/-- One document advances processed-plus-buffered by exactly one. -/
theorem processDoc_count (cfg : WCfg) (σ : WState) (d : Doc) :
    (processDoc cfg σ d).stats.processed + (processDoc cfg σ d).batch.length =
      σ.stats.processed + σ.batch.length + 1 := by
  unfold processDoc
  by_cases hskip : skipCond cfg σ.store d
  · rw [if_pos hskip]
    simp [recordSkipped]
    omega
  · rw [if_neg hskip]
    cases hp : d.parse with
    | error e =>
      dsimp only
      simp [recordFailure]
      omega
    | ok bk =>
      dsimp only
      by_cases hgid : bk.gutenbergID = ""
      · rw [if_pos hgid]
        simp [recordFailure]
        omega
      · rw [if_neg hgid]
        by_cases hflush : cfg.batchSize ≤ σ.batch.length + 1
        · rw [if_pos (by simpa using hflush)]
          rw [insertBatchW_processed, insertBatchW_batch]
          simp
          omega
        · rw [if_neg (by simpa using hflush)]
          simp
          omega

/-- One document keeps the balance of the outcome counters. -/
theorem processDoc_balanced (cfg : WCfg) (σ : WState) (d : Doc)
    (h : σ.stats.processed = σ.stats.successful + σ.stats.failed + σ.stats.skipped) :
    (processDoc cfg σ d).stats.processed =
      (processDoc cfg σ d).stats.successful + (processDoc cfg σ d).stats.failed +
        (processDoc cfg σ d).stats.skipped := by
  unfold processDoc
  by_cases hskip : skipCond cfg σ.store d
  · rw [if_pos hskip]
    simp [recordSkipped]
    omega
  · rw [if_neg hskip]
    cases hp : d.parse with
    | error e =>
      dsimp only
      simp [recordFailure]
      omega
    | ok bk =>
      dsimp only
      by_cases hgid : bk.gutenbergID = ""
      · rw [if_pos hgid]
        simp [recordFailure]
        omega
      · rw [if_neg hgid]
        by_cases hflush : cfg.batchSize ≤ σ.batch.length + 1
        · rw [if_pos (by simpa using hflush)]
          exact insertBatchW_balanced cfg _ h
        · rw [if_neg (by simpa using hflush)]
          exact h

/-- One document records a skip exactly under the resume-skip condition. -/
theorem processDoc_skipped (cfg : WCfg) (σ : WState) (d : Doc) :
    (processDoc cfg σ d).stats.skipped =
      σ.stats.skipped + (skipCond cfg σ.store d).toNat := by
  unfold processDoc
  by_cases hskip : skipCond cfg σ.store d
  · rw [if_pos hskip, hskip]
    simp [recordSkipped]
  · rw [if_neg hskip]
    rw [Bool.of_not_eq_true hskip]
    cases hp : d.parse with
    | error e =>
      dsimp only
      simp [recordFailure]
    | ok bk =>
      dsimp only
      by_cases hgid : bk.gutenbergID = ""
      · rw [if_pos hgid]
        simp [recordFailure]
      · rw [if_neg hgid]
        by_cases hflush : cfg.batchSize ≤ σ.batch.length + 1
        · rw [if_pos (by simpa using hflush)]
          rw [insertBatchW_skipped]
          rfl
        · rw [if_neg (by simpa using hflush)]
          rfl

/-- C8 (confirmed): after a worker consumes its whole document list, every
document has been recorded with exactly one terminal outcome — the processed
counter equals the document count and equals successes plus failures plus
skips — and at each document the skip counter advances exactly when resume is
on, the parse succeeded, the identifier is non-empty and `BookExists` holds
on the store at that moment. -/
theorem worker_outcome_accounting (cfg : WCfg) (docs : List Doc) (s0 : Store) :
    (workerRun cfg docs s0).stats.processed = docs.length ∧
      (workerRun cfg docs s0).stats.processed =
        (workerRun cfg docs s0).stats.successful + (workerRun cfg docs s0).stats.failed +
          (workerRun cfg docs s0).stats.skipped ∧
      ∀ (σ : WState) (d : Doc),
        (processDoc cfg σ d).stats.skipped =
          σ.stats.skipped + (skipCond cfg σ.store d).toNat := by
  have hfold : (docs.foldl (processDoc cfg) (initWState s0 docs.length)).stats.processed +
      (docs.foldl (processDoc cfg) (initWState s0 docs.length)).batch.length = docs.length := by
    have h2 := foldl_count (fun τ => τ.stats.processed + τ.batch.length) (processDoc cfg)
      (fun τ d => processDoc_count cfg τ d) docs (initWState s0 docs.length)
    simpa [initWState] using h2
  have hbal : (docs.foldl (processDoc cfg) (initWState s0 docs.length)).stats.processed =
      (docs.foldl (processDoc cfg) (initWState s0 docs.length)).stats.successful +
        (docs.foldl (processDoc cfg) (initWState s0 docs.length)).stats.failed +
        (docs.foldl (processDoc cfg) (initWState s0 docs.length)).stats.skipped := by
    apply foldl_pred
      (fun τ => τ.stats.processed = τ.stats.successful + τ.stats.failed + τ.stats.skipped)
      (processDoc cfg) (fun τ d hτ => processDoc_balanced cfg τ d hτ)
    rfl
  refine ⟨?_, ?_, fun σ d => processDoc_skipped cfg σ d⟩
  · unfold workerRun
    by_cases hb : (docs.foldl (processDoc cfg) (initWState s0 docs.length)).batch.isEmpty
    · rw [if_pos hb]
      have hnil := List.isEmpty_iff.1 hb
      rw [hnil] at hfold
      simpa using hfold
    · rw [if_neg hb]
      rw [insertBatchW_processed]
      exact hfold
  · unfold workerRun
    by_cases hb : (docs.foldl (processDoc cfg) (initWState s0 docs.length)).batch.isEmpty
    · rw [if_pos hb]
      exact hbal
    · rw [if_neg hb]
      exact insertBatchW_balanced cfg _ hbal
